import Mathlib

/-!
Verification of the category-pagination download pipeline of
`zlibdownload.py` (`run_download_process`).

The embedding models the core loop of `run_download_process` faithfully:

* `Category` is one entry of the persisted `categories.json` collection
  (dict keys `id`, `slug`, `scrape_enabled`, `max_pages_to_scrape`,
  `next_page_to_scrape`, `books_processed_on_page`).  Python falsiness of a
  missing/empty `id`/`slug` is modelled by the empty string.
* External collaborators are oracles packaged in `World`:
  `scrape` models `z.search_scrape` (the parsed record list; the code reads
  the same records back from `to_download.txt` in download mode),
  `checkOk` models whether `cbconnect.check_if_downloaded` raises
  (an exception is treated by the code as "not downloaded"),
  `downloadOk` models whether `z.downloadBook` returns a truthy result
  (a falsy result or an exception while initiating the download both make
  the code set `halt_run_due_to_limit`),
  `fileSaveOk` models whether writing the book file (including creating the
  output directory) succeeds,
  `markOk` models whether `cbconnect.mark_as_downloaded` succeeds, and
  `saveOk n` models whether the n-th `save_json(categories, ...)` of the
  run succeeds.
* The Couchbase Ledger is the list of marked book ids, threaded through the
  run; a successful `mark_as_downloaded` appends the id.
* Every externally observable action is recorded in an `Event` trace, and
  every successful `save_json` additionally records a durable snapshot of
  the whole category collection together with the Ledger at that moment.
* `sys.exit(1)` after a failed state save is modelled by the `aborted`
  flag, which short-circuits all remaining processing; the `finally:`
  block's final `save_json` (executed only in download mode, line 553-555)
  still runs, as in the source.

Not modelled (file/CLI plumbing excluded by the spec): config loading,
login, history fetch, the dry-run report file, `time.sleep`, progress bars,
and the `to_download.txt` round-trip (assumed faithful, so the processed
record list equals the scraped record list and `books_found_on_page`
equals its length).
-/

namespace ZlibDownload

/-- A parsed book record (one `id|hash|title|authors` line). -/
structure Book where
  id : String
  hash : String
  title : String
  authors : String
deriving Repr, DecidableEq

/-- One persisted category entry of `categories.json`. -/
structure Category where
  id : String
  slug : String
  scrape_enabled : Bool
  max_pages_to_scrape : Nat
  next_page_to_scrape : Nat
  books_processed_on_page : Nat
deriving Repr, DecidableEq

/-- Result of `z.search_scrape` for one page: the `success` flag and the
ordered record list (`books_found` is its length). -/
structure ScrapeResult where
  success : Bool
  books : List Book
deriving Repr, DecidableEq

/-- External collaborators of one run, as deterministic oracles. -/
structure World where
  shouldDownload : Bool
  scrape : String → Nat → ScrapeResult
  checkOk : String → Bool
  downloadOk : String → Bool
  fileSaveOk : String → Bool
  markOk : String → Bool
  saveOk : Nat → Bool

/-- Observable actions of the run, in order. -/
inductive Event where
  /-- `cbconnect.check_if_downloaded(collection, book_id)` was invoked. -/
  | check (bookId : String)
  /-- `category["books_processed_on_page"]` was incremented (line 322 or 437). -/
  | bump
  /-- `z.downloadBook` was invoked; `ok` is whether it returned a result. -/
  | dlAttempt (bookId : String) (ok : Bool)
  /-- The fetched bytes were written to the output file; `ok` is success. -/
  | fileWrite (bookId : String) (ok : Bool)
  /-- `cbconnect.mark_as_downloaded` was invoked; `ok` is its result. -/
  | mark (bookId : String) (ok : Bool)
  /-- `save_json(categories, categories_file)` was invoked; `ok` is its result. -/
  | save (ok : Bool)
  /-- `next_page_to_scrape` was advanced to `newPage` (line 504). -/
  | advance (newPage : Nat)
deriving Repr, DecidableEq

/-- Ledger membership (`check_if_downloaded` ground truth). -/
def inLedger (led : List String) (x : String) : Bool :=
  match led with
  | [] => false
  | y :: rest => x == y || inLedger rest x

/-- The mutable state of one run. -/
structure RunState where
  cats : List Category
  ledger : List String
  halt : Bool
  aborted : Bool
  saveCount : Nat
  saves : List (List Category × List String)
  events : List Event
deriving Repr

def emit (s : RunState) (e : Event) : RunState :=
  { s with events := s.events ++ [e] }

def setCat (s : RunState) (ci : Nat) (c : Category) : RunState :=
  { s with cats := s.cats.set ci c }

/-- `category.get("books_processed_on_page", 0)` for the category at index `ci`. -/
def counterOf (s : RunState) (ci : Nat) : Nat :=
  match s.cats[ci]? with
  | some c => c.books_processed_on_page
  | none => 0

/-- `category["books_processed_on_page"] += 1` (lines 322 and 437). -/
def bumpCounter (s : RunState) (ci : Nat) : RunState :=
  let cats :=
    match s.cats[ci]? with
    | some c => s.cats.set ci { c with books_processed_on_page := c.books_processed_on_page + 1 }
    | none => s.cats
  { s with cats := cats, events := s.events ++ [Event.bump] }

/-- `save_json(categories, categories_file)`: on success the whole category
collection (with the Ledger as it stands) becomes durable. -/
def saveState (w : World) (s : RunState) : RunState × Bool :=
  let ok := w.saveOk s.saveCount
  let s := { s with saveCount := s.saveCount + 1, events := s.events ++ [Event.save ok] }
  if ok then ({ s with saves := s.saves ++ [(s.cats, s.ledger)] }, true)
  else (s, false)

/-- First pass over the enumerated page records (lines 296-349): skip below
the in-memory counter, skip records with a falsy id, check Couchbase
(an exception counts as "not downloaded"), bump the counter for records
already in the Ledger, and collect the missing ones (with their original
index) for the download pass.  In dry-run mode missing records are only
reported, never collected. -/
def checkPass (w : World) (ci : Nat) :
    List (Nat × Book) → RunState → List (Nat × Book) → RunState × List (Nat × Book)
  | [], s, acc => (s, acc)
  | (idx, b) :: rest, s, acc =>
    if idx < counterOf s ci then
      checkPass w ci rest s acc
    else if b.id = "" then
      checkPass w ci rest s acc
    else
      let s := emit s (Event.check b.id)
      if w.checkOk b.id && inLedger s.ledger b.id then
        checkPass w ci rest (bumpCounter s ci) acc
      else if !w.shouldDownload then
        checkPass w ci rest s acc
      else
        checkPass w ci rest s (acc ++ [(idx, b)])

/-- Second pass (lines 354-484): attempt each missing download in order.
On a truthy download result the file is written; if that succeeds the book
is marked; only if the mark also succeeds is the counter bumped and the
state saved (a failed save is `sys.exit(1)`).  A failed file write or a
failed mark just moves on to the next record.  A falsy download result (or
an exception initiating the download) sets the halt flag and breaks. -/
def downloadPass (w : World) (ci : Nat) : List (Nat × Book) → RunState → RunState
  | [], s => s
  | (_, b) :: rest, s =>
    if s.halt then s
    else
      let dOk := w.downloadOk b.id
      let s := emit s (Event.dlAttempt b.id dOk)
      if dOk then
        let fOk := w.fileSaveOk b.id
        let s := emit s (Event.fileWrite b.id fOk)
        if fOk then
          let mOk := w.markOk b.id
          let s := emit s (Event.mark b.id mOk)
          if mOk then
            let s := { s with ledger := s.ledger ++ [b.id] }
            let s := bumpCounter s ci
            let r := saveState w s
            if r.2 then downloadPass w ci rest r.1
            else { r.1 with aborted := true }
          else downloadPass w ci rest s
        else downloadPass w ci rest s
      else { s with halt := true }

/-- The per-category page loop (lines 228-529).  `fuel` is
`max_pages_to_scrape - new_pages_scraped_this_run`; every iteration either
breaks or completes a page (incrementing `new_pages_scraped_this_run`).
Each iteration resets the in-memory `books_processed_on_page` to 0
(line 235), scrapes the current page, breaks on scrape error or zero
records, then runs the two passes.  If the page is fully processed the
cursor advances (counter reset to 0) and is saved (failure is fatal);
otherwise the loop breaks. -/
def pageLoop (w : World) (ci : Nat) : Nat → RunState → RunState
  | 0, s => s
  | fuel + 1, s =>
    if s.halt then s
    else
      match s.cats[ci]? with
      | none => s
      | some cat =>
        let currentPage := cat.next_page_to_scrape
        let s := setCat s ci { cat with books_processed_on_page := 0 }
        let res := w.scrape cat.id currentPage
        if !res.success then s
        else if res.books.length = 0 then s
        else
          let pr := checkPass w ci res.books.enum s []
          let s := pr.1
          let s :=
            if w.shouldDownload && !pr.2.isEmpty then downloadPass w ci pr.2 s else s
          if s.aborted then s
          else if s.halt then s
          else if counterOf s ci = res.books.length then
            match s.cats[ci]? with
            | none => s
            | some cat2 =>
              let s := setCat s ci
                { cat2 with next_page_to_scrape := currentPage + 1,
                            books_processed_on_page := 0 }
              let s := emit s (Event.advance (currentPage + 1))
              let r := saveState w s
              if r.2 then pageLoop w ci fuel r.1
              else { r.1 with aborted := true }
          else s

/-- One iteration of the outer category loop (lines 199-221): skip disabled
categories and categories with a falsy id or slug, otherwise run the page
loop with the per-run page budget. -/
def processCategory (w : World) (ci : Nat) (s : RunState) : RunState :=
  match s.cats[ci]? with
  | none => s
  | some cat =>
    if !cat.scrape_enabled then s
    else if cat.id = "" || cat.slug = "" then s
    else pageLoop w ci cat.max_pages_to_scrape s

/-- The outer category loop; after each category the global halt flag stops
the run (line 538), and an abort (`sys.exit`) stops everything. -/
def catLoop (w : World) : List Nat → RunState → RunState
  | [], s => s
  | ci :: rest, s =>
    if s.aborted then s
    else
      let s := processCategory w ci s
      if s.halt then s else catLoop w rest s

def initState (cats : List Category) (ledger : List String) : RunState :=
  { cats := cats, ledger := ledger, halt := false, aborted := false,
    saveCount := 0, saves := [], events := [] }

/-- `run_download_process` restricted to its core loop: run all categories,
then the `finally:` block performs a final `save_json` in download mode
(line 553-555); the dry-run branch skips it (line 556-557). -/
def runProcess (w : World) (cats0 : List Category) (ledger0 : List String) : RunState :=
  let s := catLoop w (List.range cats0.length) (initState cats0 ledger0)
  if w.shouldDownload && !s.cats.isEmpty then (saveState w s).1 else s

/-! ### Trace observers -/

/-- Is this event a download attempt that returned a falsy result? -/
def isFailedDl : Event → Bool
  | Event.dlAttempt _ false => true
  | _ => false

/-- Some download attempt in the trace failed. -/
def hasFailedDl (es : List Event) : Bool := es.any isFailedDl

/-- Is this event a page advance? -/
def isAdvance : Event → Bool
  | Event.advance _ => true
  | _ => false

/-- Some `next_page_to_scrape` advance happened in the trace. -/
def hasAdvance (es : List Event) : Bool := es.any isAdvance

/-- The download attempt recorded by an event, if any. -/
def attemptOf : Event → Option (String × Bool)
  | Event.dlAttempt i ok => some (i, ok)
  | _ => none

/-- All download attempts of the trace, in order. -/
def attemptsOf (es : List Event) : List (String × Bool) := es.filterMap attemptOf

/-- The persisted-state invariant claimed by the spec: in every category,
all records at positions strictly below `books_processed_on_page` on page
`next_page_to_scrape` are present in the Ledger. -/
def prefixInLedger (w : World) (cats : List Category) (led : List String) : Bool :=
  cats.all fun c =>
    ((w.scrape c.id c.next_page_to_scrape).books.take c.books_processed_on_page).all
      fun b => inLedger led b.id

/-- Checker for the claim that every counter increment is immediately
followed by a state save. -/
def bumpsSaved : List Event → Bool
  | [] => true
  | Event.bump :: rest =>
    (match rest with
     | Event.save _ :: _ => true
     | _ => false) && bumpsSaved rest
  | _ :: rest => bumpsSaved rest

/-!
Trace automata.  Each is a left fold of a step function over the event
trace; an automaton entering its dead state means the corresponding
temporal property was violated somewhere in the trace.
-/

/-- Quota-halt automaton: state 0 = no failed download attempt yet,
state 1 = a download attempt failed, state 2 (dead) = a download was
attempted after a failed attempt. -/
def quotaStep (q : Nat) (e : Event) : Nat :=
  match q, e with
  | 0, Event.dlAttempt _ false => 1
  | 0, _ => 0
  | 1, Event.dlAttempt _ _ => 2
  | 1, _ => 1
  | _, _ => 2

def quotaRun (q : Nat) (es : List Event) : Nat := es.foldl quotaStep q

/-- Mark-then-save automaton: after every successful mark the very next
events must be a counter bump and then a state-save attempt.  State 0 =
idle, 1 = saw a successful mark, 2 = saw its bump, 3 = dead. -/
def trioStep (q : Nat) (e : Event) : Nat :=
  match q, e with
  | 0, Event.mark _ true => 1
  | 0, _ => 0
  | 1, Event.bump => 2
  | 2, Event.save _ => 0
  | _, _ => 3

def trioRun (q : Nat) (es : List Event) : Nat := es.foldl trioStep q

/-- Failed-mark automaton: a counter bump never immediately follows a
failed mark.  State 0 = idle, 1 = just saw a failed mark, 2 = dead. -/
def nmfStep (q : Nat) (e : Event) : Nat :=
  match q, e with
  | 0, Event.mark _ false => 1
  | 0, _ => 0
  | 1, Event.bump => 2
  | 1, Event.mark _ false => 1
  | 1, _ => 0
  | _, _ => 2

def nmfRun (q : Nat) (es : List Event) : Nat := es.foldl nmfStep q

/-- Failed-file-write automaton: neither a mark nor a counter bump ever
immediately follows a failed file write.  State 0 = idle, 1 = just saw a
failed file write, 2 = dead. -/
def fsStep (q : Nat) (e : Event) : Nat :=
  match q, e with
  | 0, Event.fileWrite _ false => 1
  | 0, _ => 0
  | 1, Event.mark _ _ => 2
  | 1, Event.bump => 2
  | 1, Event.fileWrite _ false => 1
  | 1, _ => 0
  | _, _ => 2

def fsRun (q : Nat) (es : List Event) : Nat := es.foldl fsStep q

/-- Abort automaton: after a failed state save only further save attempts
may appear in the trace (the `finally:` block's final save); any other
event is a violation.  State 0 = idle, 1 = a save failed, 2 = dead. -/
def abortStep (q : Nat) (e : Event) : Nat :=
  match q, e with
  | 0, Event.save false => 1
  | 0, _ => 0
  | 1, Event.save _ => 1
  | 1, _ => 2
  | _, _ => 2

def abortRun (q : Nat) (es : List Event) : Nat := es.foldl abortStep q

/-! ### Flag-coupled trace invariants -/

/-- Invariant holding for the state returned by every processing stage:
the quota automaton's state mirrors the halt flag, a failed download
attempt occurred iff the halt flag is set, every successful mark is
immediately followed by a bump and a save attempt, no bump immediately
follows a failed mark, no mark or bump immediately follows a failed file
write, and the abort automaton's state mirrors the aborted flag. -/
def PostInv (s : RunState) : Prop :=
  quotaRun 0 s.events = (if s.halt then 1 else 0) ∧
  hasFailedDl s.events = s.halt ∧
  trioRun 0 s.events = 0 ∧
  nmfRun 0 s.events ≤ 1 ∧
  fsRun 0 s.events ≤ 1 ∧
  abortRun 0 s.events = (if s.aborted then 1 else 0)

/-- `PostInv` for a state whose halt and abort flags are still clear. -/
def CleanInv (s : RunState) : Prop :=
  s.halt = false ∧ s.aborted = false ∧ PostInv s

/-- Every id of `led` is also in the ledger of `s` (the run's ledger only
grows, so the initial ledger stays contained). -/
def LedExt (led : List String) (s : RunState) : Prop :=
  ∀ x, inLedger led x = true → inLedger s.ledger x = true

/-- No download attempt recorded in `es` is for an id of `led`. -/
def AttemptsFresh (led : List String) (es : List Event) : Prop :=
  ∀ p ∈ attemptsOf es, inLedger led p.1 = false

/-- No pending download-list entry is for an id of `led`. -/
def PendFresh (led : List String) (l : List (Nat × Book)) : Prop :=
  ∀ p ∈ l, inLedger led p.2.id = false

/-- Bound used for the cursor-monotonicity claim: the category's counter
does not exceed the record count of the page its cursor points at. -/
def catOKb (w : World) (c : Category) : Bool :=
  decide (c.books_processed_on_page ≤ (w.scrape c.id c.next_page_to_scrape).books.length)

/-- Pointwise page monotonicity between two category collections. -/
def CatsLE (l l' : List Category) : Prop :=
  l.length = l'.length ∧
  ∀ (ci : Nat) (c c' : Category), l[ci]? = some c → l'[ci]? = some c' →
    c.next_page_to_scrape ≤ c'.next_page_to_scrape

/-- Bundled cursor-shape invariant of a state relative to a base
collection: every category (in memory and in every durable snapshot)
satisfies the counter bound, and no page cursor went below the base. -/
def ShapeOK (w : World) (base : List Category) (s : RunState) : Prop :=
  (∀ c' ∈ s.cats, catOKb w c' = true) ∧
  (∀ sn ∈ s.saves, ∀ c' ∈ sn.1, catOKb w c' = true) ∧
  CatsLE base s.cats

/-! ### Concrete instances used in counterexamples and witnesses -/

def bk (i : String) : Book := ⟨i, "h", "t", "au"⟩

/-- A fresh enabled category at page 1. -/
def cat1 : Category :=
  { id := "cat", slug := "slug", scrape_enabled := true, max_pages_to_scrape := 1,
    next_page_to_scrape := 1, books_processed_on_page := 0 }

/-- Scenario B's persisted end state: page 1, one record already handled. -/
def catResume : Category := { cat1 with books_processed_on_page := 1 }

/-- A category whose cursor is at page 2 with a nonzero persisted counter. -/
def catPage2 : Category :=
  { cat1 with next_page_to_scrape := 2, books_processed_on_page := 1 }

/-- Benign world: page 1 of the category holds records a, b, c; all
collaborator calls succeed. -/
def baseW : World :=
  { shouldDownload := true,
    scrape := fun i p =>
      if i == "cat" && p == 1 then ⟨true, [bk "a", bk "b", bk "c"]⟩ else ⟨true, []⟩,
    checkOk := fun _ => true, downloadOk := fun _ => true,
    fileSaveOk := fun _ => true, markOk := fun _ => true, saveOk := fun _ => true }

/-- World whose page 1 holds a single record a. -/
def oneBookW : World :=
  { baseW with scrape := fun i p =>
      if i == "cat" && p == 1 then ⟨true, [bk "a"]⟩ else ⟨true, []⟩ }

/-- World whose page 1 holds records a and b. -/
def twoBookW : World :=
  { baseW with scrape := fun i p =>
      if i == "cat" && p == 1 then ⟨true, [bk "a", bk "b"]⟩ else ⟨true, []⟩ }

/-- Only the download of a succeeds; the download of b fails. -/
def wC1 : World := { baseW with downloadOk := fun i => i == "a" }

/-- Dry-run world over the one-record page. -/
def wC2 : World := { oneBookW with shouldDownload := false }

/-- Every mark fails. -/
def wC5 : World := { oneBookW with markOk := fun _ => false }

/-- Every download attempt fails. -/
def wC7 : World := { oneBookW with downloadOk := fun _ => false }

/-- Every page is empty. -/
def wC8 : World := { baseW with scrape := fun _ _ => ⟨true, []⟩ }

/-- Writing the file for a fails; everything else succeeds. -/
def wC10 : World := { twoBookW with fileSaveOk := fun i => !(i == "a") }

/-! ### Basic lemmas about the trace observers -/

theorem quotaRun_append (q : Nat) (es es' : List Event) :
    quotaRun q (es ++ es') = quotaRun (quotaRun q es) es' := by
  simp [quotaRun, List.foldl_append]

theorem trioRun_append (q : Nat) (es es' : List Event) :
    trioRun q (es ++ es') = trioRun (trioRun q es) es' := by
  simp [trioRun, List.foldl_append]

theorem nmfRun_append (q : Nat) (es es' : List Event) :
    nmfRun q (es ++ es') = nmfRun (nmfRun q es) es' := by
  simp [nmfRun, List.foldl_append]

theorem fsRun_append (q : Nat) (es es' : List Event) :
    fsRun q (es ++ es') = fsRun (fsRun q es) es' := by
  simp [fsRun, List.foldl_append]

theorem abortRun_append (q : Nat) (es es' : List Event) :
    abortRun q (es ++ es') = abortRun (abortRun q es) es' := by
  simp [abortRun, List.foldl_append]

theorem quotaRun_cons (q : Nat) (e : Event) (es : List Event) :
    quotaRun q (e :: es) = quotaRun (quotaStep q e) es := rfl

theorem quotaRun_nil (q : Nat) : quotaRun q [] = q := rfl

theorem trioRun_cons (q : Nat) (e : Event) (es : List Event) :
    trioRun q (e :: es) = trioRun (trioStep q e) es := rfl

theorem trioRun_nil (q : Nat) : trioRun q [] = q := rfl

theorem nmfRun_cons (q : Nat) (e : Event) (es : List Event) :
    nmfRun q (e :: es) = nmfRun (nmfStep q e) es := rfl

theorem nmfRun_nil (q : Nat) : nmfRun q [] = q := rfl

theorem fsRun_cons (q : Nat) (e : Event) (es : List Event) :
    fsRun q (e :: es) = fsRun (fsStep q e) es := rfl

theorem fsRun_nil (q : Nat) : fsRun q [] = q := rfl

theorem abortRun_cons (q : Nat) (e : Event) (es : List Event) :
    abortRun q (e :: es) = abortRun (abortStep q e) es := rfl

theorem abortRun_nil (q : Nat) : abortRun q [] = q := rfl

theorem hasFailedDl_append (es es' : List Event) :
    hasFailedDl (es ++ es') = (hasFailedDl es || hasFailedDl es') := by
  simp [hasFailedDl]

theorem hasFailedDl_cons (e : Event) (es : List Event) :
    hasFailedDl (e :: es) = (isFailedDl e || hasFailedDl es) := by
  simp [hasFailedDl]

theorem hasFailedDl_nil : hasFailedDl [] = false := rfl

theorem attemptsOf_append (es es' : List Event) :
    attemptsOf (es ++ es') = attemptsOf es ++ attemptsOf es' := by
  simp [attemptsOf]

theorem inLedger_append (led led' : List String) (x : String) :
    inLedger (led ++ led') x = (inLedger led x || inLedger led' x) := by
  induction led with
  | nil => simp [inLedger]
  | cons y rest ih => simp [inLedger, ih, Bool.or_assoc]

/-! ### Field lemmas for the primitive state operations -/

theorem emit_events (s : RunState) (e : Event) : (emit s e).events = s.events ++ [e] := rfl

theorem emit_halt (s : RunState) (e : Event) : (emit s e).halt = s.halt := rfl

theorem emit_aborted (s : RunState) (e : Event) : (emit s e).aborted = s.aborted := rfl

theorem emit_ledger (s : RunState) (e : Event) : (emit s e).ledger = s.ledger := rfl

theorem emit_saves (s : RunState) (e : Event) : (emit s e).saves = s.saves := rfl

theorem emit_saveCount (s : RunState) (e : Event) : (emit s e).saveCount = s.saveCount := rfl

theorem emit_cats (s : RunState) (e : Event) : (emit s e).cats = s.cats := rfl

theorem bumpCounter_events (s : RunState) (ci : Nat) :
    (bumpCounter s ci).events = s.events ++ [Event.bump] := rfl

theorem bumpCounter_halt (s : RunState) (ci : Nat) : (bumpCounter s ci).halt = s.halt := rfl

theorem bumpCounter_aborted (s : RunState) (ci : Nat) :
    (bumpCounter s ci).aborted = s.aborted := rfl

theorem bumpCounter_ledger (s : RunState) (ci : Nat) :
    (bumpCounter s ci).ledger = s.ledger := rfl

theorem bumpCounter_saves (s : RunState) (ci : Nat) : (bumpCounter s ci).saves = s.saves := rfl

theorem bumpCounter_saveCount (s : RunState) (ci : Nat) :
    (bumpCounter s ci).saveCount = s.saveCount := rfl

theorem setCat_events (s : RunState) (ci : Nat) (c : Category) :
    (setCat s ci c).events = s.events := rfl

theorem setCat_halt (s : RunState) (ci : Nat) (c : Category) :
    (setCat s ci c).halt = s.halt := rfl

theorem setCat_aborted (s : RunState) (ci : Nat) (c : Category) :
    (setCat s ci c).aborted = s.aborted := rfl

theorem setCat_ledger (s : RunState) (ci : Nat) (c : Category) :
    (setCat s ci c).ledger = s.ledger := rfl

theorem setCat_saves (s : RunState) (ci : Nat) (c : Category) :
    (setCat s ci c).saves = s.saves := rfl

theorem setCat_cats (s : RunState) (ci : Nat) (c : Category) :
    (setCat s ci c).cats = s.cats.set ci c := rfl

theorem saveState_snd (w : World) (s : RunState) :
    (saveState w s).2 = w.saveOk s.saveCount := by
  simp only [saveState]
  split <;> simp_all

theorem saveState_fst_events (w : World) (s : RunState) :
    (saveState w s).1.events = s.events ++ [Event.save (w.saveOk s.saveCount)] := by
  simp only [saveState]
  split <;> rfl

theorem saveState_fst_halt (w : World) (s : RunState) : (saveState w s).1.halt = s.halt := by
  simp only [saveState]
  split <;> rfl

theorem saveState_fst_aborted (w : World) (s : RunState) :
    (saveState w s).1.aborted = s.aborted := by
  simp only [saveState]
  split <;> rfl

theorem saveState_fst_cats (w : World) (s : RunState) : (saveState w s).1.cats = s.cats := by
  simp only [saveState]
  split <;> rfl

theorem saveState_fst_ledger (w : World) (s : RunState) :
    (saveState w s).1.ledger = s.ledger := by
  simp only [saveState]
  split <;> rfl

theorem saveState_fst_saves (w : World) (s : RunState) :
    (saveState w s).1.saves =
      (if w.saveOk s.saveCount then s.saves ++ [(s.cats, s.ledger)] else s.saves) := by
  simp only [saveState]
  split <;> simp_all

theorem saveState_fst_saveCount (w : World) (s : RunState) :
    (saveState w s).1.saveCount = s.saveCount + 1 := by
  simp only [saveState]
  split <;> rfl

/-! ### Invariant transfer lemmas -/

/-- Appending a benign event chunk (no failed download, closed for all the
trace automata) preserves `CleanInv`. -/
theorem cleanInv_append (s s' : RunState) (c : List Event)
    (hev : s'.events = s.events ++ c)
    (hh' : s'.halt = s.halt) (ha' : s'.aborted = s.aborted)
    (hq : quotaRun 0 c = 0) (hf : hasFailedDl c = false)
    (ht : trioRun 0 c = 0)
    (hn : ∀ q, q ≤ 1 → nmfRun q c ≤ 1)
    (hs : ∀ q, q ≤ 1 → fsRun q c ≤ 1)
    (hab : abortRun 0 c = 0)
    (h : CleanInv s) : CleanInv s' := by
  obtain ⟨hh, ha, h1, h2, h3, h4, h5, h6⟩ := h
  have h1' : quotaRun 0 s.events = 0 := by simpa [hh] using h1
  have h2' : hasFailedDl s.events = false := by simpa [hh] using h2
  have h6' : abortRun 0 s.events = 0 := by simpa [ha] using h6
  refine ⟨by rw [hh', hh], by rw [ha', ha], ?_, ?_, ?_, ?_, ?_, ?_⟩
  · simp [hev, hh', hh, quotaRun_append, h1', hq]
  · simp [hev, hh', hh, hasFailedDl_append, h2', hf]
  · simp [hev, trioRun_append, h3, ht]
  · rw [hev, nmfRun_append]; exact hn _ h4
  · rw [hev, fsRun_append]; exact hs _ h5
  · simp [hev, ha', ha, abortRun_append, h6', hab]

/-- The failed-download step: the attempt event is recorded and the halt
flag is raised; the resulting state satisfies `PostInv`. -/
theorem postInv_dlFail (s : RunState) (i : String) (h : CleanInv s) :
    PostInv { emit s (Event.dlAttempt i false) with halt := true } := by
  obtain ⟨hh, ha, h1, h2, h3, h4, h5, h6⟩ := h
  have h1' : quotaRun 0 s.events = 0 := by simpa [hh] using h1
  have h2' : hasFailedDl s.events = false := by simpa [hh] using h2
  have h6' : abortRun 0 s.events = 0 := by simpa [ha] using h6
  refine ⟨?_, ?_, ?_, ?_, ?_, ?_⟩
  · simp [emit, quotaRun_append, h1', quotaRun_cons, quotaRun_nil, quotaStep]
  · simp [emit, hasFailedDl_append, h2', hasFailedDl_cons, hasFailedDl_nil, isFailedDl]
  · simp [emit, trioRun_append, h3, trioRun_cons, trioRun_nil, trioStep]
  · rw [show ({ emit s (Event.dlAttempt i false) with halt := true } : RunState).events
        = s.events ++ [Event.dlAttempt i false] from rfl, nmfRun_append]
    interval_cases h : nmfRun 0 s.events <;> simp [nmfRun_cons, nmfRun_nil, nmfStep]
  · rw [show ({ emit s (Event.dlAttempt i false) with halt := true } : RunState).events
        = s.events ++ [Event.dlAttempt i false] from rfl, fsRun_append]
    interval_cases h : fsRun 0 s.events <;> simp [fsRun_cons, fsRun_nil, fsStep]
  · simp [emit, ha, abortRun_append, h6', abortRun_cons, abortRun_nil, abortStep]

/-- The successful download-write-mark step, followed by the bump and the
state save: if the save succeeds the state is clean again, and if it fails
the aborted state satisfies `PostInv`. -/
theorem downloadStep_ok (w : World) (ci : Nat) (s : RunState) (i : String)
    (h : CleanInv s) :
    ((saveState w (bumpCounter
        { emit (emit (emit s (Event.dlAttempt i true)) (Event.fileWrite i true))
            (Event.mark i true) with
          ledger := (emit (emit (emit s (Event.dlAttempt i true)) (Event.fileWrite i true))
            (Event.mark i true)).ledger ++ [i] } ci)).2 = true →
      CleanInv (saveState w (bumpCounter
        { emit (emit (emit s (Event.dlAttempt i true)) (Event.fileWrite i true))
            (Event.mark i true) with
          ledger := (emit (emit (emit s (Event.dlAttempt i true)) (Event.fileWrite i true))
            (Event.mark i true)).ledger ++ [i] } ci)).1) ∧
    ((saveState w (bumpCounter
        { emit (emit (emit s (Event.dlAttempt i true)) (Event.fileWrite i true))
            (Event.mark i true) with
          ledger := (emit (emit (emit s (Event.dlAttempt i true)) (Event.fileWrite i true))
            (Event.mark i true)).ledger ++ [i] } ci)).2 = false →
      PostInv { (saveState w (bumpCounter
        { emit (emit (emit s (Event.dlAttempt i true)) (Event.fileWrite i true))
            (Event.mark i true) with
          ledger := (emit (emit (emit s (Event.dlAttempt i true)) (Event.fileWrite i true))
            (Event.mark i true)).ledger ++ [i] } ci)).1 with aborted := true }) := by
  obtain ⟨hh, ha, h1, h2, h3, h4, h5, h6⟩ := h
  have h1' : quotaRun 0 s.events = 0 := by simpa [hh] using h1
  have h2' : hasFailedDl s.events = false := by simpa [hh] using h2
  have h6' : abortRun 0 s.events = 0 := by simpa [ha] using h6
  set s4 : RunState :=
    { emit (emit (emit s (Event.dlAttempt i true)) (Event.fileWrite i true))
        (Event.mark i true) with
      ledger := (emit (emit (emit s (Event.dlAttempt i true)) (Event.fileWrite i true))
        (Event.mark i true)).ledger ++ [i] } with hs4
  set s5 : RunState := bumpCounter s4 ci with hs5
  have hevents : (saveState w s5).1.events =
      s.events ++ [Event.dlAttempt i true, Event.fileWrite i true, Event.mark i true,
        Event.bump, Event.save (w.saveOk s.saveCount)] := by
    rw [saveState_fst_events]
    simp [hs5, hs4, bumpCounter_events, bumpCounter_saveCount, emit]
  have hhalt : (saveState w s5).1.halt = s.halt := by
    rw [saveState_fst_halt]; simp [hs5, hs4, bumpCounter_halt, emit]
  have habort : (saveState w s5).1.aborted = s.aborted := by
    rw [saveState_fst_aborted]; simp [hs5, hs4, bumpCounter_aborted, emit]
  have hsnd : (saveState w s5).2 = w.saveOk s.saveCount := by
    rw [saveState_snd]; simp [hs5, hs4, bumpCounter_saveCount, emit]
  constructor
  · intro hok
    rw [hsnd] at hok
    refine ⟨by rw [hhalt, hh], by rw [habort, ha], ?_, ?_, ?_, ?_, ?_, ?_⟩
    · simp [hevents, hhalt, hh, quotaRun_append, h1', hok, quotaRun_cons, quotaRun_nil, quotaStep]
    · simp [hevents, hhalt, hh, hasFailedDl_append, h2', hasFailedDl_cons, hasFailedDl_nil, isFailedDl]
    · simp [hevents, trioRun_append, h3, hok, trioRun_cons, trioRun_nil, trioStep]
    · rw [hevents, nmfRun_append]
      interval_cases h : nmfRun 0 s.events <;> simp [hok, nmfRun_cons, nmfRun_nil, nmfStep]
    · rw [hevents, fsRun_append]
      interval_cases h : fsRun 0 s.events <;> simp [hok, fsRun_cons, fsRun_nil, fsStep]
    · simp [hevents, habort, ha, abortRun_append, h6', hok, abortRun_cons, abortRun_nil, abortStep]
  · intro hfail
    rw [hsnd] at hfail
    refine ⟨?_, ?_, ?_, ?_, ?_, ?_⟩
    · show quotaRun 0 (saveState w s5).1.events = _
      simp [hevents, hhalt, hh, quotaRun_append, h1', hfail, quotaRun_cons, quotaRun_nil, quotaStep]
    · show hasFailedDl (saveState w s5).1.events = _
      simp [hevents, hhalt, hh, hasFailedDl_append, h2', hasFailedDl_cons, hasFailedDl_nil, isFailedDl]
    · show trioRun 0 (saveState w s5).1.events = 0
      simp [hevents, trioRun_append, h3, hfail, trioRun_cons, trioRun_nil, trioStep]
    · show nmfRun 0 (saveState w s5).1.events ≤ 1
      rw [hevents, nmfRun_append]
      interval_cases h : nmfRun 0 s.events <;> simp [hfail, nmfRun_cons, nmfRun_nil, nmfStep]
    · show fsRun 0 (saveState w s5).1.events ≤ 1
      rw [hevents, fsRun_append]
      interval_cases h : fsRun 0 s.events <;> simp [hfail, fsRun_cons, fsRun_nil, fsStep]
    · show abortRun 0 (saveState w s5).1.events = _
      simp [hevents, abortRun_append, h6', hfail, abortRun_cons, abortRun_nil, abortStep]

/-- The page-advance step: record the advance and save; if the save
succeeds the state is clean again, otherwise the aborted state satisfies
`PostInv`. -/
theorem advanceStep_ok (w : World) (ci : Nat) (s : RunState) (c : Category) (p : Nat)
    (h : CleanInv s) :
    ((saveState w (emit (setCat s ci c) (Event.advance p))).2 = true →
      CleanInv (saveState w (emit (setCat s ci c) (Event.advance p))).1) ∧
    ((saveState w (emit (setCat s ci c) (Event.advance p))).2 = false →
      PostInv { (saveState w (emit (setCat s ci c) (Event.advance p))).1 with
                aborted := true }) := by
  obtain ⟨hh, ha, h1, h2, h3, h4, h5, h6⟩ := h
  have h1' : quotaRun 0 s.events = 0 := by simpa [hh] using h1
  have h2' : hasFailedDl s.events = false := by simpa [hh] using h2
  have h6' : abortRun 0 s.events = 0 := by simpa [ha] using h6
  set s1 : RunState := emit (setCat s ci c) (Event.advance p) with hs1
  have hevents : (saveState w s1).1.events =
      s.events ++ [Event.advance p, Event.save (w.saveOk s.saveCount)] := by
    rw [saveState_fst_events]
    simp [hs1, emit, setCat]
  have hhalt : (saveState w s1).1.halt = s.halt := by
    rw [saveState_fst_halt]; simp [hs1, emit, setCat]
  have habort : (saveState w s1).1.aborted = s.aborted := by
    rw [saveState_fst_aborted]; simp [hs1, emit, setCat]
  have hsnd : (saveState w s1).2 = w.saveOk s.saveCount := by
    rw [saveState_snd]; simp [hs1, emit, setCat]
  constructor
  · intro hok
    rw [hsnd] at hok
    refine ⟨by rw [hhalt, hh], by rw [habort, ha], ?_, ?_, ?_, ?_, ?_, ?_⟩
    · simp [hevents, hhalt, hh, quotaRun_append, h1', hok, quotaRun_cons, quotaRun_nil, quotaStep]
    · simp [hevents, hhalt, hh, hasFailedDl_append, h2', hasFailedDl_cons, hasFailedDl_nil,
        isFailedDl]
    · simp [hevents, trioRun_append, h3, hok, trioRun_cons, trioRun_nil, trioStep]
    · rw [hevents, nmfRun_append]
      interval_cases h : nmfRun 0 s.events <;> simp [hok, nmfRun_cons, nmfRun_nil, nmfStep]
    · rw [hevents, fsRun_append]
      interval_cases h : fsRun 0 s.events <;> simp [hok, fsRun_cons, fsRun_nil, fsStep]
    · simp [hevents, habort, ha, abortRun_append, h6', hok, abortRun_cons, abortRun_nil,
        abortStep]
  · intro hfail
    rw [hsnd] at hfail
    refine ⟨?_, ?_, ?_, ?_, ?_, ?_⟩
    · show quotaRun 0 (saveState w s1).1.events = _
      simp [hevents, hhalt, hh, quotaRun_append, h1', hfail, quotaRun_cons, quotaRun_nil,
        quotaStep]
    · show hasFailedDl (saveState w s1).1.events = _
      simp [hevents, hhalt, hh, hasFailedDl_append, h2', hasFailedDl_cons, hasFailedDl_nil,
        isFailedDl]
    · show trioRun 0 (saveState w s1).1.events = 0
      simp [hevents, trioRun_append, h3, hfail, trioRun_cons, trioRun_nil, trioStep]
    · show nmfRun 0 (saveState w s1).1.events ≤ 1
      rw [hevents, nmfRun_append]
      interval_cases h : nmfRun 0 s.events <;> simp [hfail, nmfRun_cons, nmfRun_nil, nmfStep]
    · show fsRun 0 (saveState w s1).1.events ≤ 1
      rw [hevents, fsRun_append]
      interval_cases h : fsRun 0 s.events <;> simp [hfail, fsRun_cons, fsRun_nil, fsStep]
    · show abortRun 0 (saveState w s1).1.events = _
      simp [hevents, abortRun_append, h6', hfail, abortRun_cons, abortRun_nil, abortStep]

/-- `setCat` records no events and leaves all flags, so it preserves
`CleanInv`. -/
theorem cleanInv_setCat (s : RunState) (ci : Nat) (c : Category) (h : CleanInv s) :
    CleanInv (setCat s ci c) := by
  refine cleanInv_append s _ [] ?_ rfl rfl rfl rfl rfl ?_ ?_ rfl h
  · simp [setCat_events]
  · intro q hq; simpa [nmfRun_nil] using hq
  · intro q hq; simpa [fsRun_nil] using hq

/-! ### Preservation of the trace invariants by each stage -/

theorem checkPass_clean (w : World) (ci : Nat) :
    ∀ (l : List (Nat × Book)) (s : RunState) (acc : List (Nat × Book)),
      CleanInv s → CleanInv (checkPass w ci l s acc).1 := by
  intro l
  induction l with
  | nil => intro s acc h; exact h
  | cons p rest ih =>
    obtain ⟨idx, b⟩ := p
    intro s acc h
    simp only [checkPass]
    split
    · exact ih s acc h
    split
    · exact ih s acc h
    split
    · refine ih _ _ (cleanInv_append s _ [Event.check b.id, Event.bump] ?_ rfl rfl rfl ?_ rfl
        ?_ ?_ rfl h)
      · simp [bumpCounter_events, emit_events]
      · simp [hasFailedDl_cons, hasFailedDl_nil, isFailedDl]
      · intro q hq; interval_cases q <;> simp [nmfRun_cons, nmfRun_nil, nmfStep]
      · intro q hq; interval_cases q <;> simp [fsRun_cons, fsRun_nil, fsStep]
    split
    · refine ih _ _ (cleanInv_append s _ [Event.check b.id] ?_ rfl rfl rfl ?_ rfl ?_ ?_ rfl h)
      · simp [emit_events]
      · simp [hasFailedDl_cons, hasFailedDl_nil, isFailedDl]
      · intro q hq; interval_cases q <;> simp [nmfRun_cons, nmfRun_nil, nmfStep]
      · intro q hq; interval_cases q <;> simp [fsRun_cons, fsRun_nil, fsStep]
    · refine ih _ _ (cleanInv_append s _ [Event.check b.id] ?_ rfl rfl rfl ?_ rfl ?_ ?_ rfl h)
      · simp [emit_events]
      · simp [hasFailedDl_cons, hasFailedDl_nil, isFailedDl]
      · intro q hq; interval_cases q <;> simp [nmfRun_cons, nmfRun_nil, nmfStep]
      · intro q hq; interval_cases q <;> simp [fsRun_cons, fsRun_nil, fsStep]

theorem downloadPass_post (w : World) (ci : Nat) :
    ∀ (l : List (Nat × Book)) (s : RunState), CleanInv s → PostInv (downloadPass w ci l s) := by
  intro l
  induction l with
  | nil => intro s h; exact h.2.2
  | cons p rest ih =>
    obtain ⟨oi, b⟩ := p
    intro s h
    have hh := h.1
    simp only [downloadPass, hh, Bool.false_eq_true, if_false]
    cases hd : w.downloadOk b.id with
    | false =>
      simp only [Bool.false_eq_true, if_false]
      exact postInv_dlFail s b.id h
    | true =>
      simp only [if_true]
      cases hf : w.fileSaveOk b.id with
      | false =>
        simp only [Bool.false_eq_true, if_false]
        refine ih _ (cleanInv_append s _
          [Event.dlAttempt b.id true, Event.fileWrite b.id false] ?_ rfl rfl rfl ?_ rfl
          ?_ ?_ rfl h)
        · simp [emit_events]
        · simp [hasFailedDl_cons, hasFailedDl_nil, isFailedDl]
        · intro q hq; interval_cases q <;> simp [nmfRun_cons, nmfRun_nil, nmfStep]
        · intro q hq; interval_cases q <;> simp [fsRun_cons, fsRun_nil, fsStep]
      | true =>
        simp only [if_true]
        cases hm : w.markOk b.id with
        | false =>
          simp only [Bool.false_eq_true, if_false]
          refine ih _ (cleanInv_append s _
            [Event.dlAttempt b.id true, Event.fileWrite b.id true, Event.mark b.id false]
            ?_ rfl rfl rfl ?_ rfl ?_ ?_ rfl h)
          · simp [emit_events]
          · simp [hasFailedDl_cons, hasFailedDl_nil, isFailedDl]
          · intro q hq; interval_cases q <;> simp [nmfRun_cons, nmfRun_nil, nmfStep]
          · intro q hq; interval_cases q <;> simp [fsRun_cons, fsRun_nil, fsStep]
        | true =>
          simp only [if_true]
          split
          · next hok => exact ih _ ((downloadStep_ok w ci s b.id h).1 hok)
          · next hfail =>
            exact (downloadStep_ok w ci s b.id h).2 (by simpa using hfail)

/-- The page-completion logic (lines 486-527) preserves the trace
invariant, for any state `t` reached after the two passes. -/
theorem pageTail_post (w : World) (ci : Nat) (n : Nat) (p N : Nat)
    (ih : ∀ s, CleanInv s → PostInv (pageLoop w ci n s))
    (t : RunState) (h3 : PostInv t) :
    PostInv (if t.aborted = true then t
      else if t.halt = true then t
      else if counterOf t ci = N then
        match t.cats[ci]? with
        | none => t
        | some cat2 =>
          if (saveState w (emit (setCat t ci
              { cat2 with next_page_to_scrape := p + 1, books_processed_on_page := 0 })
              (Event.advance (p + 1)))).2 = true then
            pageLoop w ci n (saveState w (emit (setCat t ci
              { cat2 with next_page_to_scrape := p + 1, books_processed_on_page := 0 })
              (Event.advance (p + 1)))).1
          else
            { (saveState w (emit (setCat t ci
                { cat2 with next_page_to_scrape := p + 1, books_processed_on_page := 0 })
                (Event.advance (p + 1)))).1 with aborted := true }
      else t) := by
  split
  · exact h3
  next hab =>
  split
  · exact h3
  next hh =>
  have hclean : CleanInv t := ⟨by simpa using hh, by simpa using hab, h3⟩
  split
  · split
    · exact h3
    · split
      · next hok => exact ih _ ((advanceStep_ok w ci t _ _ hclean).1 hok)
      · next hfail =>
        exact (advanceStep_ok w ci t _ _ hclean).2 (by simpa using hfail)
  · exact h3

theorem pageLoop_post (w : World) (ci : Nat) :
    ∀ (fuel : Nat) (s : RunState), CleanInv s → PostInv (pageLoop w ci fuel s) := by
  intro fuel
  induction fuel with
  | zero => intro s h; exact h.2.2
  | succ n ih =>
    intro s h
    have hh := h.1
    simp only [pageLoop, hh, Bool.false_eq_true, if_false]
    cases hc : s.cats[ci]? with
    | none => exact h.2.2
    | some cat =>
      simp only []
      have h1 : CleanInv (setCat s ci { cat with books_processed_on_page := 0 }) :=
        cleanInv_setCat s ci _ h
      split
      · exact h1.2.2
      split
      · exact h1.2.2
      have h2 : CleanInv (checkPass w ci
          (w.scrape cat.id cat.next_page_to_scrape).books.enum
          (setCat s ci { cat with books_processed_on_page := 0 }) []).1 :=
        checkPass_clean w ci _ _ _ h1
      split
      · exact pageTail_post w ci n cat.next_page_to_scrape
          (w.scrape cat.id cat.next_page_to_scrape).books.length ih _
          (downloadPass_post w ci _ _ h2)
      · exact pageTail_post w ci n cat.next_page_to_scrape
          (w.scrape cat.id cat.next_page_to_scrape).books.length ih _ h2.2.2

theorem processCategory_post (w : World) (ci : Nat) (s : RunState) (h : CleanInv s) :
    PostInv (processCategory w ci s) := by
  simp only [processCategory]
  cases hc : s.cats[ci]? with
  | none => exact h.2.2
  | some cat =>
    simp only []
    split
    · exact h.2.2
    split
    · exact h.2.2
    · exact pageLoop_post w ci _ s h

theorem catLoop_post (w : World) :
    ∀ (l : List Nat) (s : RunState), s.halt = false → PostInv s → PostInv (catLoop w l s) := by
  intro l
  induction l with
  | nil => intro s _ h; exact h
  | cons ci rest ih =>
    intro s hh h
    simp only [catLoop]
    split
    · exact h
    next hab =>
    have hclean : CleanInv s := ⟨hh, by simpa using hab, h⟩
    have h1 : PostInv (processCategory w ci s) := processCategory_post w ci s hclean
    split
    · exact h1
    next hh1 => exact ih _ (by simpa using hh1) h1

/-- The master invariant of a full run: the quota and abort automata never
reach their dead states, a failed download attempt occurred iff the final
halt flag is set, every successful mark is immediately followed by a bump
and a save attempt, no bump immediately follows a failed mark, and no mark
or bump immediately follows a failed file write. -/
theorem runProcess_post (w : World) (cats0 : List Category) (ledger0 : List String) :
    quotaRun 0 (runProcess w cats0 ledger0).events ≤ 1 ∧
    hasFailedDl (runProcess w cats0 ledger0).events = (runProcess w cats0 ledger0).halt ∧
    trioRun 0 (runProcess w cats0 ledger0).events = 0 ∧
    nmfRun 0 (runProcess w cats0 ledger0).events ≤ 1 ∧
    fsRun 0 (runProcess w cats0 ledger0).events ≤ 1 ∧
    abortRun 0 (runProcess w cats0 ledger0).events ≤ 1 := by
  have hinit : PostInv (initState cats0 ledger0) := by
    refine ⟨rfl, rfl, rfl, ?_, ?_, rfl⟩ <;> simp [initState, nmfRun_nil, fsRun_nil]
  have hpost : PostInv (catLoop w (List.range cats0.length) (initState cats0 ledger0)) :=
    catLoop_post w _ _ rfl hinit
  obtain ⟨h1, h2, h3, h4, h5, h6⟩ := hpost
  simp only [runProcess]
  split
  · set s := catLoop w (List.range cats0.length) (initState cats0 ledger0) with hs
    have hev : (saveState w s).1.events =
        s.events ++ [Event.save (w.saveOk s.saveCount)] := saveState_fst_events w s
    have hhalt : (saveState w s).1.halt = s.halt := saveState_fst_halt w s
    refine ⟨?_, ?_, ?_, ?_, ?_, ?_⟩
    · rw [hev, quotaRun_append, h1]
      cases s.halt <;> simp [quotaRun_cons, quotaRun_nil, quotaStep]
    · rw [hev, hhalt, hasFailedDl_append, h2]
      simp [hasFailedDl_cons, hasFailedDl_nil, isFailedDl]
    · rw [hev, trioRun_append, h3]
      simp [trioRun_cons, trioRun_nil, trioStep]
    · rw [hev, nmfRun_append]
      interval_cases h : nmfRun 0 s.events <;>
        cases w.saveOk s.saveCount <;> simp [nmfRun_cons, nmfRun_nil, nmfStep]
    · rw [hev, fsRun_append]
      interval_cases h : fsRun 0 s.events <;>
        cases w.saveOk s.saveCount <;> simp [fsRun_cons, fsRun_nil, fsStep]
    · rw [hev, abortRun_append, h6]
      cases s.aborted <;> cases w.saveOk s.saveCount <;>
        simp [abortRun_cons, abortRun_nil, abortStep]
  · exact ⟨by rw [h1]; split <;> simp, h2, h3, h4, h5, by rw [h6]; split <;> simp⟩

/-! ### Downloads are only attempted for records absent from the initial
Ledger (given honest existence checks) -/

theorem attemptsFresh_of_nil (led : List String) (es : List Event)
    (h : attemptsOf es = []) : AttemptsFresh led es := by
  intro p hp
  rw [h] at hp
  exact absurd hp (List.not_mem_nil p)

theorem attemptsFresh_append (led : List String) (es es' : List Event)
    (h1 : AttemptsFresh led es) (h2 : AttemptsFresh led es') :
    AttemptsFresh led (es ++ es') := by
  intro p hp
  rw [attemptsOf_append] at hp
  rcases List.mem_append.mp hp with h | h
  exacts [h1 p h, h2 p h]

theorem checkPass_led (w : World) (ci : Nat) (led : List String)
    (hck : ∀ i, w.checkOk i = true) :
    ∀ (l : List (Nat × Book)) (s : RunState) (acc : List (Nat × Book)),
      LedExt led s → PendFresh led acc → AttemptsFresh led s.events →
      LedExt led (checkPass w ci l s acc).1 ∧
        PendFresh led (checkPass w ci l s acc).2 ∧
        AttemptsFresh led (checkPass w ci l s acc).1.events := by
  intro l
  induction l with
  | nil => intro s acc hl hp ha; exact ⟨hl, hp, ha⟩
  | cons p rest ih =>
    obtain ⟨idx, b⟩ := p
    intro s acc hl hp ha
    simp only [checkPass]
    split
    · exact ih s acc hl hp ha
    split
    · exact ih s acc hl hp ha
    have hl' : LedExt led (emit s (Event.check b.id)) := hl
    have ha' : AttemptsFresh led (emit s (Event.check b.id)).events := by
      rw [emit_events]
      exact attemptsFresh_append led _ _ ha (attemptsFresh_of_nil led _ rfl)
    split
    · refine ih _ acc ?_ hp ?_
      · exact hl'
      · rw [bumpCounter_events]
        exact attemptsFresh_append led _ _ ha' (attemptsFresh_of_nil led _ rfl)
    next hfound =>
    split
    · exact ih _ acc hl' hp ha'
    · refine ih _ _ hl' ?_ ha'
      intro q hq
      rcases List.mem_append.mp hq with h | h
      · exact hp q h
      · have hq' : q = (idx, b) := by simpa using h
        subst hq'
        simp only [hck b.id, Bool.true_and] at hfound
        by_contra hcon
        have hmem : inLedger led b.id = true := by
          cases hledb : inLedger led b.id
          · exact absurd hledb hcon
          · rfl
        exact hfound (by simpa [emit_ledger] using hl b.id hmem)

theorem downloadPass_led (w : World) (ci : Nat) (led : List String) :
    ∀ (l : List (Nat × Book)) (s : RunState),
      LedExt led s → PendFresh led l → AttemptsFresh led s.events →
      LedExt led (downloadPass w ci l s) ∧
        AttemptsFresh led (downloadPass w ci l s).events := by
  intro l
  induction l with
  | nil => intro s hl _ ha; exact ⟨hl, ha⟩
  | cons p rest ih =>
    obtain ⟨oi, b⟩ := p
    intro s hl hp ha
    have hbfresh : inLedger led b.id = false := hp (oi, b) (List.mem_cons_self _ _)
    have hprest : PendFresh led rest := fun q hq => hp q (List.mem_cons_of_mem _ hq)
    simp only [downloadPass]
    split
    · exact ⟨hl, ha⟩
    have hattempt : ∀ (ok : Bool),
        AttemptsFresh led (emit s (Event.dlAttempt b.id ok)).events := by
      intro ok
      rw [emit_events]
      refine attemptsFresh_append led _ _ ha ?_
      intro q hq
      have hq' : q = (b.id, ok) := by
        simpa [attemptsOf, List.filterMap, attemptOf] using hq
      rw [hq']
      exact hbfresh
    cases hd : w.downloadOk b.id with
    | false =>
      simp only [Bool.false_eq_true, if_false]
      exact ⟨hl, hattempt false⟩
    | true =>
      simp only [if_true]
      cases hf : w.fileSaveOk b.id with
      | false =>
        simp only [Bool.false_eq_true, if_false]
        refine ih _ hl hprest ?_
        show AttemptsFresh led ((emit s (Event.dlAttempt b.id true)).events
          ++ [Event.fileWrite b.id false])
        exact attemptsFresh_append led _ _ (hattempt true)
          (attemptsFresh_of_nil led _ rfl)
      | true =>
        simp only [if_true]
        cases hm : w.markOk b.id with
        | false =>
          simp only [Bool.false_eq_true, if_false]
          refine ih _ hl hprest ?_
          show AttemptsFresh led (((emit s (Event.dlAttempt b.id true)).events
            ++ [Event.fileWrite b.id true]) ++ [Event.mark b.id false])
          refine attemptsFresh_append led _ _ ?_ (attemptsFresh_of_nil led _ rfl)
          exact attemptsFresh_append led _ _ (hattempt true)
            (attemptsFresh_of_nil led _ rfl)
        | true =>
          simp only [if_true]
          have hled2 : LedExt led (saveState w (bumpCounter
              { emit (emit (emit s (Event.dlAttempt b.id true)) (Event.fileWrite b.id true))
                  (Event.mark b.id true) with
                ledger := (emit (emit (emit s (Event.dlAttempt b.id true))
                  (Event.fileWrite b.id true)) (Event.mark b.id true)).ledger ++ [b.id] }
              ci)).1 := by
            intro x hx
            rw [saveState_fst_ledger, bumpCounter_ledger]
            show inLedger ((emit (emit (emit s (Event.dlAttempt b.id true))
              (Event.fileWrite b.id true)) (Event.mark b.id true)).ledger ++ [b.id]) x = true
            rw [inLedger_append]
            have h1 : inLedger (emit (emit (emit s (Event.dlAttempt b.id true))
                (Event.fileWrite b.id true)) (Event.mark b.id true)).ledger x = true := hl x hx
            rw [h1, Bool.true_or]
          have hatt2 : AttemptsFresh led (saveState w (bumpCounter
              { emit (emit (emit s (Event.dlAttempt b.id true)) (Event.fileWrite b.id true))
                  (Event.mark b.id true) with
                ledger := (emit (emit (emit s (Event.dlAttempt b.id true))
                  (Event.fileWrite b.id true)) (Event.mark b.id true)).ledger ++ [b.id] }
              ci)).1.events := by
            rw [saveState_fst_events, bumpCounter_events]
            refine attemptsFresh_append led _ _ ?_ (attemptsFresh_of_nil led _ rfl)
            refine attemptsFresh_append led _ _ ?_ (attemptsFresh_of_nil led _ rfl)
            show AttemptsFresh led (((emit s (Event.dlAttempt b.id true)).events
              ++ [Event.fileWrite b.id true]) ++ [Event.mark b.id true])
            refine attemptsFresh_append led _ _ ?_ (attemptsFresh_of_nil led _ rfl)
            exact attemptsFresh_append led _ _ (hattempt true)
              (attemptsFresh_of_nil led _ rfl)
          split
          · exact ih _ hled2 hprest hatt2
          · exact ⟨hled2, hatt2⟩

theorem pageTail_led (w : World) (ci : Nat) (n : Nat) (p N : Nat) (led : List String)
    (ih : ∀ s, LedExt led s → AttemptsFresh led s.events →
      LedExt led (pageLoop w ci n s) ∧ AttemptsFresh led (pageLoop w ci n s).events)
    (t : RunState) (hl : LedExt led t) (ha : AttemptsFresh led t.events) :
    LedExt led (if t.aborted = true then t
      else if t.halt = true then t
      else if counterOf t ci = N then
        match t.cats[ci]? with
        | none => t
        | some cat2 =>
          if (saveState w (emit (setCat t ci
              { cat2 with next_page_to_scrape := p + 1, books_processed_on_page := 0 })
              (Event.advance (p + 1)))).2 = true then
            pageLoop w ci n (saveState w (emit (setCat t ci
              { cat2 with next_page_to_scrape := p + 1, books_processed_on_page := 0 })
              (Event.advance (p + 1)))).1
          else
            { (saveState w (emit (setCat t ci
                { cat2 with next_page_to_scrape := p + 1, books_processed_on_page := 0 })
                (Event.advance (p + 1)))).1 with aborted := true }
      else t) ∧
    AttemptsFresh led (if t.aborted = true then t
      else if t.halt = true then t
      else if counterOf t ci = N then
        match t.cats[ci]? with
        | none => t
        | some cat2 =>
          if (saveState w (emit (setCat t ci
              { cat2 with next_page_to_scrape := p + 1, books_processed_on_page := 0 })
              (Event.advance (p + 1)))).2 = true then
            pageLoop w ci n (saveState w (emit (setCat t ci
              { cat2 with next_page_to_scrape := p + 1, books_processed_on_page := 0 })
              (Event.advance (p + 1)))).1
          else
            { (saveState w (emit (setCat t ci
                { cat2 with next_page_to_scrape := p + 1, books_processed_on_page := 0 })
                (Event.advance (p + 1)))).1 with aborted := true }
      else t).events := by
  split
  · exact ⟨hl, ha⟩
  split
  · exact ⟨hl, ha⟩
  split
  · split
    · exact ⟨hl, ha⟩
    · next cat2 hcat2 =>
      have hl1 : LedExt led (saveState w (emit (setCat t ci
          { cat2 with next_page_to_scrape := p + 1, books_processed_on_page := 0 })
          (Event.advance (p + 1)))).1 := by
        intro x hx
        rw [saveState_fst_ledger]
        exact hl x hx
      have ha1 : AttemptsFresh led (saveState w (emit (setCat t ci
          { cat2 with next_page_to_scrape := p + 1, books_processed_on_page := 0 })
          (Event.advance (p + 1)))).1.events := by
        rw [saveState_fst_events]
        refine attemptsFresh_append led _ _ ?_ (attemptsFresh_of_nil led _ rfl)
        show AttemptsFresh led ((setCat t ci _).events ++ [Event.advance (p + 1)])
        exact attemptsFresh_append led _ _ ha (attemptsFresh_of_nil led _ rfl)
      split
      · exact ih _ hl1 ha1
      · exact ⟨hl1, ha1⟩
  · exact ⟨hl, ha⟩

theorem pageLoop_led (w : World) (ci : Nat) (led : List String)
    (hck : ∀ i, w.checkOk i = true) :
    ∀ (fuel : Nat) (s : RunState), LedExt led s → AttemptsFresh led s.events →
      LedExt led (pageLoop w ci fuel s) ∧
        AttemptsFresh led (pageLoop w ci fuel s).events := by
  intro fuel
  induction fuel with
  | zero => intro s hl ha; exact ⟨hl, ha⟩
  | succ n ih =>
    intro s hl ha
    simp only [pageLoop]
    split
    · exact ⟨hl, ha⟩
    cases hc : s.cats[ci]? with
    | none => exact ⟨hl, ha⟩
    | some cat =>
      simp only []
      split
      · exact ⟨hl, ha⟩
      split
      · exact ⟨hl, ha⟩
      have hcp := checkPass_led w ci led hck
        (w.scrape cat.id cat.next_page_to_scrape).books.enum
        (setCat s ci { cat with books_processed_on_page := 0 }) []
        hl (fun q hq => absurd hq (List.not_mem_nil q)) ha
      obtain ⟨hl2, hp2, ha2⟩ := hcp
      split
      · have hdp := downloadPass_led w ci led _ _ hl2 hp2 ha2
        exact pageTail_led w ci n cat.next_page_to_scrape
          (w.scrape cat.id cat.next_page_to_scrape).books.length led ih _ hdp.1 hdp.2
      · exact pageTail_led w ci n cat.next_page_to_scrape
          (w.scrape cat.id cat.next_page_to_scrape).books.length led ih _ hl2 ha2

theorem processCategory_led (w : World) (ci : Nat) (led : List String)
    (hck : ∀ i, w.checkOk i = true) (s : RunState)
    (hl : LedExt led s) (ha : AttemptsFresh led s.events) :
    LedExt led (processCategory w ci s) ∧
      AttemptsFresh led (processCategory w ci s).events := by
  simp only [processCategory]
  cases hc : s.cats[ci]? with
  | none => exact ⟨hl, ha⟩
  | some cat =>
    simp only []
    split
    · exact ⟨hl, ha⟩
    split
    · exact ⟨hl, ha⟩
    · exact pageLoop_led w ci led hck _ s hl ha

theorem catLoop_led (w : World) (led : List String) (hck : ∀ i, w.checkOk i = true) :
    ∀ (l : List Nat) (s : RunState), LedExt led s → AttemptsFresh led s.events →
      LedExt led (catLoop w l s) ∧ AttemptsFresh led (catLoop w l s).events := by
  intro l
  induction l with
  | nil => intro s hl ha; exact ⟨hl, ha⟩
  | cons ci rest ih =>
    intro s hl ha
    simp only [catLoop]
    split
    · exact ⟨hl, ha⟩
    have h1 := processCategory_led w ci led hck s hl ha
    split
    · exact h1
    · exact ih _ h1.1 h1.2

/-- Master lemma for the resumability contract: in a run with honest
Ledger existence checks, every download attempt is for a record that was
absent from the Ledger when the run started. -/
theorem runProcess_led (w : World) (cats0 : List Category) (ledger0 : List String)
    (hck : ∀ i, w.checkOk i = true) :
    AttemptsFresh ledger0 (runProcess w cats0 ledger0).events := by
  have hinit : LedExt ledger0 (initState cats0 ledger0) := fun x hx => hx
  have hainit : AttemptsFresh ledger0 (initState cats0 ledger0).events :=
    fun p hp => absurd hp (List.not_mem_nil p)
  have h1 := catLoop_led w ledger0 hck (List.range cats0.length)
    (initState cats0 ledger0) hinit hainit
  simp only [runProcess]
  split
  · rw [saveState_fst_events]
    exact attemptsFresh_append ledger0 _ _ h1.2 (attemptsFresh_of_nil ledger0 _ rfl)
  · exact h1.2

/-! ### List index/update helpers -/

theorem lt_of_get_eq_some {α : Type} (l : List α) (i : Nat) (a : α)
    (h : l[i]? = some a) : i < l.length := by
  by_contra hc
  rw [List.getElem?_eq_none (by omega)] at h
  cases h

theorem get_some_of_lt {α : Type} (l : List α) (i : Nat) (h : i < l.length) :
    ∃ a, l[i]? = some a := by
  induction l generalizing i with
  | nil => simp at h
  | cons x xs ih =>
    cases i with
    | zero => exact ⟨x, by simp⟩
    | succ n =>
      obtain ⟨a, ha⟩ := ih n (by simpa using h)
      exact ⟨a, by simpa using ha⟩

theorem get_set_self {α : Type} (l : List α) (i : Nat) (a : α) (h : i < l.length) :
    (l.set i a)[i]? = some a := by
  induction l generalizing i with
  | nil => simp at h
  | cons x xs ih =>
    cases i with
    | zero => simp [List.set]
    | succ n =>
      simp only [List.set, List.getElem?_cons_succ]
      exact ih n (by simpa using h)

theorem get_set_ne {α : Type} (l : List α) (i j : Nat) (a : α) (h : i ≠ j) :
    (l.set i a)[j]? = l[j]? := by
  induction l generalizing i j with
  | nil => simp
  | cons x xs ih =>
    cases i with
    | zero =>
      cases j with
      | zero => exact absurd rfl h
      | succ n => simp [List.set]
    | succ n =>
      cases j with
      | zero => simp [List.set]
      | succ k =>
        simp only [List.set, List.getElem?_cons_succ]
        exact ih n k (by omega)

theorem set_set_same {α : Type} (l : List α) (i : Nat) (a b : α) :
    (l.set i a).set i b = l.set i b := by
  induction l generalizing i with
  | nil => rfl
  | cons x xs ih =>
    cases i with
    | zero => rfl
    | succ n => simp only [List.set]; rw [ih]

theorem set_same_eq_self {α : Type} (l : List α) (i : Nat) (a : α)
    (h : l[i]? = some a) : l.set i a = l := by
  induction l generalizing i with
  | nil => rfl
  | cons x xs ih =>
    cases i with
    | zero => simp only [List.getElem?_cons_zero, Option.some.injEq] at h; rw [List.set]; rw [h]
    | succ n =>
      simp only [List.getElem?_cons_succ] at h
      simp only [List.set]
      rw [ih n h]

theorem mem_of_mem_set {α : Type} (l : List α) (i : Nat) (a x : α)
    (h : x ∈ l.set i a) : x ∈ l ∨ x = a := by
  induction l generalizing i with
  | nil => simp at h
  | cons y ys ih =>
    cases i with
    | zero =>
      rcases List.mem_cons.mp h with h1 | h1
      · exact Or.inr h1
      · exact Or.inl (List.mem_cons_of_mem _ h1)
    | succ n =>
      rcases List.mem_cons.mp h with h1 | h1
      · exact Or.inl (h1 ▸ List.mem_cons_self _ _)
      · rcases ih n h1 with h2 | h2
        · exact Or.inl (List.mem_cons_of_mem _ h2)
        · exact Or.inr h2

theorem allP_set {α : Type} (P : α → Prop) (l : List α) (i : Nat) (a : α)
    (hl : ∀ x ∈ l, P x) (ha : P a) : ∀ x ∈ l.set i a, P x := by
  intro x hx
  rcases mem_of_mem_set l i a x hx with h | h
  · exact hl x h
  · exact h ▸ ha

/-! ### CatsLE and catOKb helpers -/

theorem catsLE_refl (l : List Category) : CatsLE l l := by
  refine ⟨rfl, ?_⟩
  intro ci c c' h h'
  rw [h] at h'
  cases h'
  exact Nat.le_refl _

theorem catsLE_trans (l1 l2 l3 : List Category) (h1 : CatsLE l1 l2) (h2 : CatsLE l2 l3) :
    CatsLE l1 l3 := by
  refine ⟨h1.1.trans h2.1, ?_⟩
  intro ci c c' hc hc'
  have hlt : ci < l2.length := h1.1 ▸ lt_of_get_eq_some _ _ _ hc
  obtain ⟨b, hb⟩ := get_some_of_lt l2 ci hlt
  exact (h1.2 ci c b hc hb).trans (h2.2 ci b c' hb hc')

theorem catsLE_set (l : List Category) (ci : Nat) (c c' : Category)
    (h : l[ci]? = some c) (hp : c.next_page_to_scrape ≤ c'.next_page_to_scrape) :
    CatsLE l (l.set ci c') := by
  refine ⟨(List.length_set l ci c').symm, ?_⟩
  intro j a b hja hjb
  by_cases hj : ci = j
  · subst hj
    have hlt := lt_of_get_eq_some l ci c h
    rw [h] at hja
    cases hja
    rw [get_set_self l ci c' hlt] at hjb
    cases hjb
    exact hp
  · rw [get_set_ne l ci j c' hj, hja] at hjb
    cases hjb
    exact Nat.le_refl _

theorem catOKb_counter (w : World) (c : Category) (m : Nat)
    (h : m ≤ (w.scrape c.id c.next_page_to_scrape).books.length) :
    catOKb w { c with books_processed_on_page := m } = true := by
  simp only [catOKb, decide_eq_true_eq]
  exact h

theorem catOKb_zero (w : World) (c : Category) (p : Nat) :
    catOKb w { c with next_page_to_scrape := p, books_processed_on_page := 0 } = true := by
  simp only [catOKb, decide_eq_true_eq]
  exact Nat.zero_le _

theorem bumpCounter_cats (s : RunState) (ci : Nat) (c : Category)
    (h : s.cats[ci]? = some c) :
    (bumpCounter s ci).cats =
      s.cats.set ci { c with books_processed_on_page := c.books_processed_on_page + 1 } := by
  simp [bumpCounter, h]

theorem shape_id (s : RunState) (ci : Nat) (c : Category) (hc : s.cats[ci]? = some c) :
    s.cats = s.cats.set ci { c with books_processed_on_page := c.books_processed_on_page } := by
  rw [show ({ c with books_processed_on_page := c.books_processed_on_page } : Category)
    = c from rfl]
  exact (set_same_eq_self s.cats ci c hc).symm

/-! ### Counter/page shape of a run -/

theorem checkPass_shape (w : World) (ci : Nat) :
    ∀ (l : List (Nat × Book)) (s : RunState) (acc : List (Nat × Book)) (c : Category),
      s.cats[ci]? = some c →
      ∃ m, (checkPass w ci l s acc).1.cats =
            s.cats.set ci { c with books_processed_on_page := m } ∧
          m + (checkPass w ci l s acc).2.length ≤
            c.books_processed_on_page + acc.length + l.length ∧
          (checkPass w ci l s acc).1.saves = s.saves := by
  intro l
  induction l with
  | nil =>
    intro s acc c hc
    exact ⟨c.books_processed_on_page, shape_id s ci c hc, by simp [checkPass], rfl⟩
  | cons p rest ih =>
    obtain ⟨idx, b⟩ := p
    intro s acc c hc
    simp only [checkPass]
    split
    · obtain ⟨m, h1, h2, h3⟩ := ih s acc c hc
      refine ⟨m, h1, ?_, h3⟩
      simp only [List.length_cons]
      omega
    split
    · obtain ⟨m, h1, h2, h3⟩ := ih s acc c hc
      refine ⟨m, h1, ?_, h3⟩
      simp only [List.length_cons]
      omega
    split
    · have hlt := lt_of_get_eq_some s.cats ci c hc
      have hc' : (bumpCounter (emit s (Event.check b.id)) ci).cats[ci]? =
          some { c with books_processed_on_page := c.books_processed_on_page + 1 } := by
        rw [bumpCounter_cats (emit s (Event.check b.id)) ci c hc]
        exact get_set_self _ _ _ hlt
      obtain ⟨m, h1, h2, h3⟩ := ih (bumpCounter (emit s (Event.check b.id)) ci) acc _ hc'
      refine ⟨m, ?_, ?_, ?_⟩
      · rw [h1, bumpCounter_cats (emit s (Event.check b.id)) ci c hc, set_set_same]
        rfl
      · have h2' : m + (checkPass w ci rest
            (bumpCounter (emit s (Event.check b.id)) ci) acc).2.length ≤
            c.books_processed_on_page + 1 + acc.length + rest.length := h2
        simp only [List.length_cons]
        omega
      · rw [h3]
        rfl
    next hfound =>
    split
    · obtain ⟨m, h1, h2, h3⟩ := ih (emit s (Event.check b.id)) acc c hc
      refine ⟨m, h1, ?_, h3⟩
      simp only [List.length_cons]
      omega
    · obtain ⟨m, h1, h2, h3⟩ := ih (emit s (Event.check b.id)) (acc ++ [(idx, b)]) c hc
      refine ⟨m, h1, ?_, h3⟩
      simp only [List.length_append, List.length_cons, List.length_nil] at h2 ⊢
      omega

theorem downloadPass_shape (w : World) (ci : Nat) :
    ∀ (l : List (Nat × Book)) (s : RunState) (c : Category),
      s.cats[ci]? = some c →
      (∀ sn ∈ s.saves, ∀ c' ∈ sn.1, catOKb w c' = true) →
      (∀ c' ∈ s.cats, catOKb w c' = true) →
      c.books_processed_on_page + l.length ≤
        (w.scrape c.id c.next_page_to_scrape).books.length →
      ∃ m, (downloadPass w ci l s).cats =
            s.cats.set ci { c with books_processed_on_page := m } ∧
          m ≤ (w.scrape c.id c.next_page_to_scrape).books.length ∧
          (∀ sn ∈ (downloadPass w ci l s).saves, ∀ c' ∈ sn.1, catOKb w c' = true) := by
  intro l
  induction l with
  | nil =>
    intro s c hc hsn hall hbud
    exact ⟨c.books_processed_on_page, shape_id s ci c hc, by simpa using hbud, hsn⟩
  | cons p rest ih =>
    obtain ⟨oi, b⟩ := p
    intro s c hc hsn hall hbud
    have hbud' : c.books_processed_on_page + rest.length + 1 ≤
        (w.scrape c.id c.next_page_to_scrape).books.length := by
      simp only [List.length_cons] at hbud
      omega
    simp only [downloadPass]
    split
    · exact ⟨c.books_processed_on_page, shape_id s ci c hc, by omega, hsn⟩
    cases hd : w.downloadOk b.id with
    | false =>
      simp only [Bool.false_eq_true, if_false]
      exact ⟨c.books_processed_on_page, shape_id s ci c hc, by omega, hsn⟩
    | true =>
      simp only [if_true]
      cases hf : w.fileSaveOk b.id with
      | false =>
        simp only [Bool.false_eq_true, if_false]
        obtain ⟨m, h1, h2, h3⟩ :=
          ih (emit (emit s (Event.dlAttempt b.id true)) (Event.fileWrite b.id false)) c hc
            hsn hall (by omega)
        exact ⟨m, h1, h2, h3⟩
      | true =>
        simp only [if_true]
        cases hm : w.markOk b.id with
        | false =>
          simp only [Bool.false_eq_true, if_false]
          obtain ⟨m, h1, h2, h3⟩ :=
            ih (emit (emit (emit s (Event.dlAttempt b.id true)) (Event.fileWrite b.id true))
              (Event.mark b.id false)) c hc hsn hall (by omega)
          exact ⟨m, h1, h2, h3⟩
        | true =>
          simp only [if_true]
          have hlt := lt_of_get_eq_some s.cats ci c hc
          have hcats5 : (bumpCounter
              { emit (emit (emit s (Event.dlAttempt b.id true)) (Event.fileWrite b.id true))
                  (Event.mark b.id true) with
                ledger := (emit (emit (emit s (Event.dlAttempt b.id true))
                  (Event.fileWrite b.id true)) (Event.mark b.id true)).ledger ++ [b.id] }
              ci).cats =
              s.cats.set ci { c with books_processed_on_page :=
                c.books_processed_on_page + 1 } :=
            bumpCounter_cats _ ci c hc
          have hok1 : catOKb w { c with books_processed_on_page :=
              c.books_processed_on_page + 1 } = true :=
            catOKb_counter w c _ (by omega)
          split
          · next hoksave =>
            have hr1cats : (saveState w (bumpCounter
                { emit (emit (emit s (Event.dlAttempt b.id true)) (Event.fileWrite b.id true))
                    (Event.mark b.id true) with
                  ledger := (emit (emit (emit s (Event.dlAttempt b.id true))
                    (Event.fileWrite b.id true)) (Event.mark b.id true)).ledger ++ [b.id] }
                ci)).1.cats =
                s.cats.set ci { c with books_processed_on_page :=
                  c.books_processed_on_page + 1 } := by
              rw [saveState_fst_cats, hcats5]
            have hc1 : (saveState w (bumpCounter
                { emit (emit (emit s (Event.dlAttempt b.id true)) (Event.fileWrite b.id true))
                    (Event.mark b.id true) with
                  ledger := (emit (emit (emit s (Event.dlAttempt b.id true))
                    (Event.fileWrite b.id true)) (Event.mark b.id true)).ledger ++ [b.id] }
                ci)).1.cats[ci]? =
                some { c with books_processed_on_page := c.books_processed_on_page + 1 } := by
              rw [hr1cats]
              exact get_set_self _ _ _ hlt
            have hsn1 : ∀ sn ∈ (saveState w (bumpCounter
                { emit (emit (emit s (Event.dlAttempt b.id true)) (Event.fileWrite b.id true))
                    (Event.mark b.id true) with
                  ledger := (emit (emit (emit s (Event.dlAttempt b.id true))
                    (Event.fileWrite b.id true)) (Event.mark b.id true)).ledger ++ [b.id] }
                ci)).1.saves, ∀ c' ∈ sn.1, catOKb w c' = true := by
              rw [saveState_fst_saves]
              have hok2 : w.saveOk (bumpCounter
                  { emit (emit (emit s (Event.dlAttempt b.id true))
                      (Event.fileWrite b.id true)) (Event.mark b.id true) with
                    ledger := (emit (emit (emit s (Event.dlAttempt b.id true))
                      (Event.fileWrite b.id true)) (Event.mark b.id true)).ledger ++ [b.id] }
                  ci).saveCount = true := by
                rw [← saveState_snd]
                exact hoksave
              rw [hok2, if_pos rfl]
              intro sn hsn2
              rcases List.mem_append.mp hsn2 with h | h
              · exact hsn sn h
              · have hsn3 : sn = ((bumpCounter
                    { emit (emit (emit s (Event.dlAttempt b.id true))
                        (Event.fileWrite b.id true)) (Event.mark b.id true) with
                      ledger := (emit (emit (emit s (Event.dlAttempt b.id true))
                        (Event.fileWrite b.id true)) (Event.mark b.id true)).ledger
                        ++ [b.id] } ci).cats,
                    (bumpCounter
                    { emit (emit (emit s (Event.dlAttempt b.id true))
                        (Event.fileWrite b.id true)) (Event.mark b.id true) with
                      ledger := (emit (emit (emit s (Event.dlAttempt b.id true))
                        (Event.fileWrite b.id true)) (Event.mark b.id true)).ledger
                        ++ [b.id] } ci).ledger) := by
                  simpa using h
                rw [hsn3]
                intro c' hc'
                rw [hcats5] at hc'
                exact allP_set (fun x => catOKb w x = true) s.cats ci _ hall hok1 c' hc'
            have hall1 : ∀ c' ∈ (saveState w (bumpCounter
                { emit (emit (emit s (Event.dlAttempt b.id true)) (Event.fileWrite b.id true))
                    (Event.mark b.id true) with
                  ledger := (emit (emit (emit s (Event.dlAttempt b.id true))
                    (Event.fileWrite b.id true)) (Event.mark b.id true)).ledger ++ [b.id] }
                ci)).1.cats, catOKb w c' = true := by
              rw [hr1cats]
              exact allP_set (fun x => catOKb w x = true) s.cats ci _ hall hok1
            obtain ⟨m, h1, h2, h3⟩ := ih _ _ hc1 hsn1 hall1 (by
              show c.books_processed_on_page + 1 + rest.length ≤
                (w.scrape c.id c.next_page_to_scrape).books.length
              omega)
            refine ⟨m, ?_, ?_, h3⟩
            · rw [h1, hr1cats, set_set_same]
            · exact h2
          · next hfailsave =>
            refine ⟨c.books_processed_on_page + 1, ?_, by omega, ?_⟩
            · show (saveState w _).1.cats = _
              rw [saveState_fst_cats, hcats5]
            · show ∀ sn ∈ (saveState w _).1.saves, ∀ c' ∈ sn.1, catOKb w c' = true
              rw [saveState_fst_saves]
              have hok2 : w.saveOk (bumpCounter
                  { emit (emit (emit s (Event.dlAttempt b.id true))
                      (Event.fileWrite b.id true)) (Event.mark b.id true) with
                    ledger := (emit (emit (emit s (Event.dlAttempt b.id true))
                      (Event.fileWrite b.id true)) (Event.mark b.id true)).ledger ++ [b.id] }
                  ci).saveCount = false := by
                rw [← saveState_snd]
                simpa using hfailsave
              rw [hok2]
              simp only [Bool.false_eq_true, if_false]
              exact hsn

theorem catOKb_zero_counter (w : World) (c : Category) :
    catOKb w { c with books_processed_on_page := 0 } = true := by
  simp only [catOKb, decide_eq_true_eq]
  exact Nat.zero_le _

theorem pageTail_shape (w : World) (ci : Nat) (n : Nat) (p N : Nat)
    (ih : ∀ s, (∀ c' ∈ s.cats, catOKb w c' = true) →
      (∀ sn ∈ s.saves, ∀ c' ∈ sn.1, catOKb w c' = true) →
      ShapeOK w s.cats (pageLoop w ci n s))
    (t : RunState)
    (hok : ∀ c' ∈ t.cats, catOKb w c' = true)
    (hsn : ∀ sn ∈ t.saves, ∀ c' ∈ sn.1, catOKb w c' = true)
    (hpage : ∀ c2, t.cats[ci]? = some c2 → c2.next_page_to_scrape = p) :
    ShapeOK w t.cats (if t.aborted = true then t
      else if t.halt = true then t
      else if counterOf t ci = N then
        match t.cats[ci]? with
        | none => t
        | some cat2 =>
          if (saveState w (emit (setCat t ci
              { cat2 with next_page_to_scrape := p + 1, books_processed_on_page := 0 })
              (Event.advance (p + 1)))).2 = true then
            pageLoop w ci n (saveState w (emit (setCat t ci
              { cat2 with next_page_to_scrape := p + 1, books_processed_on_page := 0 })
              (Event.advance (p + 1)))).1
          else
            { (saveState w (emit (setCat t ci
                { cat2 with next_page_to_scrape := p + 1, books_processed_on_page := 0 })
                (Event.advance (p + 1)))).1 with aborted := true }
      else t) := by
  split
  · exact ⟨hok, hsn, catsLE_refl _⟩
  split
  · exact ⟨hok, hsn, catsLE_refl _⟩
  split
  · split
    · exact ⟨hok, hsn, catsLE_refl _⟩
    · next cat2 heq =>
      have hlt := lt_of_get_eq_some t.cats ci cat2 heq
      have hokfin : catOKb w
          { cat2 with next_page_to_scrape := p + 1, books_processed_on_page := 0 } = true :=
        catOKb_zero w cat2 (p + 1)
      have hcats4 : (saveState w (emit (setCat t ci
          { cat2 with next_page_to_scrape := p + 1, books_processed_on_page := 0 })
          (Event.advance (p + 1)))).1.cats =
          t.cats.set ci
            { cat2 with next_page_to_scrape := p + 1, books_processed_on_page := 0 } := by
        rw [saveState_fst_cats]
        rfl
      have hok4 : ∀ c' ∈ (saveState w (emit (setCat t ci
          { cat2 with next_page_to_scrape := p + 1, books_processed_on_page := 0 })
          (Event.advance (p + 1)))).1.cats, catOKb w c' = true := by
        rw [hcats4]
        exact allP_set _ t.cats ci _ hok hokfin
      have hLE4 : CatsLE t.cats (saveState w (emit (setCat t ci
          { cat2 with next_page_to_scrape := p + 1, books_processed_on_page := 0 })
          (Event.advance (p + 1)))).1.cats := by
        rw [hcats4]
        refine catsLE_set t.cats ci cat2 _ heq ?_
        rw [hpage cat2 heq]
        exact Nat.le_succ p
      have hsn4 : ∀ sn ∈ (saveState w (emit (setCat t ci
          { cat2 with next_page_to_scrape := p + 1, books_processed_on_page := 0 })
          (Event.advance (p + 1)))).1.saves, ∀ c' ∈ sn.1, catOKb w c' = true := by
        rw [saveState_fst_saves]
        split
        · intro sn hsn2
          rcases List.mem_append.mp hsn2 with h | h
          · exact hsn sn h
          · have hsn3 : sn = ((emit (setCat t ci
                { cat2 with next_page_to_scrape := p + 1, books_processed_on_page := 0 })
                (Event.advance (p + 1))).cats,
                (emit (setCat t ci
                { cat2 with next_page_to_scrape := p + 1, books_processed_on_page := 0 })
                (Event.advance (p + 1))).ledger) := by simpa using h
            rw [hsn3]
            intro c' hc'
            have hc'' : c' ∈ t.cats.set ci
                { cat2 with next_page_to_scrape := p + 1, books_processed_on_page := 0 } :=
              hc'
            exact allP_set (fun x => catOKb w x = true) t.cats ci _ hok hokfin c' hc''
        · exact hsn
      split
      · obtain ⟨ta, tb, tc⟩ := ih _ hok4 hsn4
        exact ⟨ta, tb, catsLE_trans _ _ _ hLE4 tc⟩
      · exact ⟨hok4, hsn4, hLE4⟩
  · exact ⟨hok, hsn, catsLE_refl _⟩

theorem pageLoop_shape (w : World) (ci : Nat) :
    ∀ (fuel : Nat) (s : RunState),
      (∀ c' ∈ s.cats, catOKb w c' = true) →
      (∀ sn ∈ s.saves, ∀ c' ∈ sn.1, catOKb w c' = true) →
      ShapeOK w s.cats (pageLoop w ci fuel s) := by
  intro fuel
  induction fuel with
  | zero => intro s hok hsn; exact ⟨hok, hsn, catsLE_refl _⟩
  | succ n ih =>
    intro s hok hsn
    simp only [pageLoop]
    split
    · exact ⟨hok, hsn, catsLE_refl _⟩
    cases hc : s.cats[ci]? with
    | none => exact ⟨hok, hsn, catsLE_refl _⟩
    | some cat =>
      simp only []
      have hlt := lt_of_get_eq_some s.cats ci cat hc
      have hok1 : ∀ c' ∈ (setCat s ci { cat with books_processed_on_page := 0 }).cats,
          catOKb w c' = true := by
        rw [setCat_cats]
        exact allP_set _ s.cats ci _ hok (catOKb_zero_counter w cat)
      have hLE1 : CatsLE s.cats
          (setCat s ci { cat with books_processed_on_page := 0 }).cats := by
        rw [setCat_cats]
        exact catsLE_set s.cats ci cat _ hc (Nat.le_refl _)
      split
      · exact ⟨hok1, hsn, hLE1⟩
      split
      · exact ⟨hok1, hsn, hLE1⟩
      have hc0 : (setCat s ci { cat with books_processed_on_page := 0 }).cats[ci]? =
          some { cat with books_processed_on_page := 0 } := by
        rw [setCat_cats]
        exact get_set_self _ _ _ hlt
      obtain ⟨m1, hcp1, hcp2, hcp3⟩ := checkPass_shape w ci
        (w.scrape cat.id cat.next_page_to_scrape).books.enum
        (setCat s ci { cat with books_processed_on_page := 0 }) [] _ hc0
      have hcp2' : m1 + (checkPass w ci
          (w.scrape cat.id cat.next_page_to_scrape).books.enum
          (setCat s ci { cat with books_processed_on_page := 0 }) []).2.length ≤
          (w.scrape cat.id cat.next_page_to_scrape).books.length := by
        have h0 : m1 + (checkPass w ci
            (w.scrape cat.id cat.next_page_to_scrape).books.enum
            (setCat s ci { cat with books_processed_on_page := 0 }) []).2.length ≤
            0 + 0 + (w.scrape cat.id cat.next_page_to_scrape).books.enum.length := hcp2
        simpa [List.enum_length] using h0
      have hs2cats : (checkPass w ci
          (w.scrape cat.id cat.next_page_to_scrape).books.enum
          (setCat s ci { cat with books_processed_on_page := 0 }) []).1.cats =
          s.cats.set ci { cat with books_processed_on_page := m1 } := by
        rw [hcp1, setCat_cats, set_set_same]
      have hc2 : (checkPass w ci
          (w.scrape cat.id cat.next_page_to_scrape).books.enum
          (setCat s ci { cat with books_processed_on_page := 0 }) []).1.cats[ci]? =
          some { cat with books_processed_on_page := m1 } := by
        rw [hs2cats]
        exact get_set_self _ _ _ hlt
      have hok2 : ∀ c' ∈ (checkPass w ci
          (w.scrape cat.id cat.next_page_to_scrape).books.enum
          (setCat s ci { cat with books_processed_on_page := 0 }) []).1.cats,
          catOKb w c' = true := by
        rw [hs2cats]
        exact allP_set _ s.cats ci _ hok (catOKb_counter w cat m1 (by omega))
      have hsn2 : ∀ sn ∈ (checkPass w ci
          (w.scrape cat.id cat.next_page_to_scrape).books.enum
          (setCat s ci { cat with books_processed_on_page := 0 }) []).1.saves,
          ∀ c' ∈ sn.1, catOKb w c' = true := by
        rw [hcp3]
        exact hsn
      have hLE2 : CatsLE s.cats (checkPass w ci
          (w.scrape cat.id cat.next_page_to_scrape).books.enum
          (setCat s ci { cat with books_processed_on_page := 0 }) []).1.cats := by
        rw [hs2cats]
        exact catsLE_set s.cats ci cat _ hc (Nat.le_refl _)
      split
      · obtain ⟨m2, hd1, hd2, hd3⟩ := downloadPass_shape w ci
          (checkPass w ci (w.scrape cat.id cat.next_page_to_scrape).books.enum
            (setCat s ci { cat with books_processed_on_page := 0 }) []).2
          (checkPass w ci (w.scrape cat.id cat.next_page_to_scrape).books.enum
            (setCat s ci { cat with books_processed_on_page := 0 }) []).1
          { cat with books_processed_on_page := m1 } hc2 hsn2 hok2
          (by
            show m1 + (checkPass w ci
              (w.scrape cat.id cat.next_page_to_scrape).books.enum
              (setCat s ci { cat with books_processed_on_page := 0 }) []).2.length ≤
              (w.scrape cat.id cat.next_page_to_scrape).books.length
            exact hcp2')
        have hs3cats : (downloadPass w ci
            (checkPass w ci (w.scrape cat.id cat.next_page_to_scrape).books.enum
              (setCat s ci { cat with books_processed_on_page := 0 }) []).2
            (checkPass w ci (w.scrape cat.id cat.next_page_to_scrape).books.enum
              (setCat s ci { cat with books_processed_on_page := 0 }) []).1).cats =
            s.cats.set ci { cat with books_processed_on_page := m2 } := by
          rw [hd1, hs2cats, set_set_same]
        have hok3 : ∀ c' ∈ (downloadPass w ci
            (checkPass w ci (w.scrape cat.id cat.next_page_to_scrape).books.enum
              (setCat s ci { cat with books_processed_on_page := 0 }) []).2
            (checkPass w ci (w.scrape cat.id cat.next_page_to_scrape).books.enum
              (setCat s ci { cat with books_processed_on_page := 0 }) []).1).cats,
            catOKb w c' = true := by
          rw [hs3cats]
          exact allP_set _ s.cats ci _ hok (catOKb_counter w cat m2 hd2)
        have hpage3 : ∀ c2, (downloadPass w ci
            (checkPass w ci (w.scrape cat.id cat.next_page_to_scrape).books.enum
              (setCat s ci { cat with books_processed_on_page := 0 }) []).2
            (checkPass w ci (w.scrape cat.id cat.next_page_to_scrape).books.enum
              (setCat s ci { cat with books_processed_on_page := 0 }) []).1).cats[ci]? =
            some c2 → c2.next_page_to_scrape = cat.next_page_to_scrape := by
          intro c2 hc2'
          rw [hs3cats, get_set_self _ _ _ hlt] at hc2'
          cases hc2'
          rfl
        have hLE3 : CatsLE s.cats (downloadPass w ci
            (checkPass w ci (w.scrape cat.id cat.next_page_to_scrape).books.enum
              (setCat s ci { cat with books_processed_on_page := 0 }) []).2
            (checkPass w ci (w.scrape cat.id cat.next_page_to_scrape).books.enum
              (setCat s ci { cat with books_processed_on_page := 0 }) []).1).cats := by
          rw [hs3cats]
          exact catsLE_set s.cats ci cat _ hc (Nat.le_refl _)
        obtain ⟨ta, tb, tc⟩ := pageTail_shape w ci n cat.next_page_to_scrape
          (w.scrape cat.id cat.next_page_to_scrape).books.length ih _ hok3 hd3 hpage3
        exact ⟨ta, tb, catsLE_trans _ _ _ hLE3 tc⟩
      · have hpage2 : ∀ c2, (checkPass w ci
            (w.scrape cat.id cat.next_page_to_scrape).books.enum
            (setCat s ci { cat with books_processed_on_page := 0 }) []).1.cats[ci]? =
            some c2 → c2.next_page_to_scrape = cat.next_page_to_scrape := by
          intro c2 hc2'
          rw [hc2] at hc2'
          cases hc2'
          rfl
        obtain ⟨ta, tb, tc⟩ := pageTail_shape w ci n cat.next_page_to_scrape
          (w.scrape cat.id cat.next_page_to_scrape).books.length ih _ hok2 hsn2 hpage2
        exact ⟨ta, tb, catsLE_trans _ _ _ hLE2 tc⟩

theorem processCategory_shape (w : World) (ci : Nat) (s : RunState)
    (hok : ∀ c' ∈ s.cats, catOKb w c' = true)
    (hsn : ∀ sn ∈ s.saves, ∀ c' ∈ sn.1, catOKb w c' = true) :
    ShapeOK w s.cats (processCategory w ci s) := by
  simp only [processCategory]
  cases hc : s.cats[ci]? with
  | none => exact ⟨hok, hsn, catsLE_refl _⟩
  | some cat =>
    simp only []
    split
    · exact ⟨hok, hsn, catsLE_refl _⟩
    split
    · exact ⟨hok, hsn, catsLE_refl _⟩
    · exact pageLoop_shape w ci _ s hok hsn

theorem catLoop_shape (w : World) :
    ∀ (l : List Nat) (s : RunState),
      (∀ c' ∈ s.cats, catOKb w c' = true) →
      (∀ sn ∈ s.saves, ∀ c' ∈ sn.1, catOKb w c' = true) →
      ShapeOK w s.cats (catLoop w l s) := by
  intro l
  induction l with
  | nil => intro s hok hsn; exact ⟨hok, hsn, catsLE_refl _⟩
  | cons ci rest ih =>
    intro s hok hsn
    simp only [catLoop]
    split
    · exact ⟨hok, hsn, catsLE_refl _⟩
    obtain ⟨h1, h2, h3⟩ := processCategory_shape w ci s hok hsn
    split
    · exact ⟨h1, h2, h3⟩
    · obtain ⟨h4, h5, h6⟩ := ih _ h1 h2
      exact ⟨h4, h5, catsLE_trans _ _ _ h3 h6⟩

/-- Master lemma for cursor monotonicity and counter bounds: if every input
category's counter is within its page's record count, then the final state
and every durable snapshot satisfy the same bound, and no category's
`next_page_to_scrape` ever decreases. -/
theorem runProcess_shape (w : World) (cats0 : List Category) (ledger0 : List String)
    (hok : ∀ c' ∈ cats0, catOKb w c' = true) :
    ShapeOK w cats0 (runProcess w cats0 ledger0) := by
  have h0 := catLoop_shape w (List.range cats0.length) (initState cats0 ledger0) hok
    (fun sn hsn => absurd hsn (List.not_mem_nil sn))
  obtain ⟨h1, h2, h3⟩ := h0
  simp only [runProcess]
  split
  · refine ⟨?_, ?_, ?_⟩
    · rw [saveState_fst_cats]
      exact h1
    · rw [saveState_fst_saves]
      split
      · intro sn hsn
        rcases List.mem_append.mp hsn with h | h
        · exact h2 sn h
        · have hsn3 : sn = ((catLoop w (List.range cats0.length)
              (initState cats0 ledger0)).cats,
              (catLoop w (List.range cats0.length) (initState cats0 ledger0)).ledger) := by
            simpa using h
          rw [hsn3]
          exact h1
      · exact h2
    · rw [saveState_fst_cats]
      exact h3
  · exact ⟨h1, h2, h3⟩

/-- Helper for C8: a run over a single enabled category whose current page
scrape succeeds with zero records leaves `next_page_to_scrape` unchanged,
resets `books_processed_on_page` to 0 in memory, sets no halt or abort
flag, and (in download mode with a working save) persists exactly that
zeroed cursor at run end. -/
theorem zero_records_run (w : World) (cat : Category) (led : List String)
    (hen : cat.scrape_enabled = true) (hid : ¬cat.id = "") (hslug : ¬cat.slug = "")
    (hmax : 0 < cat.max_pages_to_scrape)
    (hscr : w.scrape cat.id cat.next_page_to_scrape = ScrapeResult.mk true []) :
    catLoop w (List.range ([cat] : List Category).length) (initState [cat] led) =
      { cats := [{ cat with books_processed_on_page := 0 }], ledger := led,
        halt := false, aborted := false, saveCount := 0, saves := [], events := [] } := by
  have hr : List.range ([cat] : List Category).length = [0] := rfl
  rw [hr]
  cases hmp : cat.max_pages_to_scrape with
  | zero => omega
  | succ k =>
    simp [catLoop, initState, processCategory, pageLoop, hen, hid, hslug, hscr, hmp, setCat]

/-! ### Claim theorems -/

/-- C1 counterexample: the claimed positional-prefix invariant fails on the
code.  With page 1 holding records a, b, c, the Ledger initially holding
only c, and the download of a succeeding while the download of b fails,
the state save issued right after a's download persists
`books_processed_on_page = 2` at page 1 although the record at position 1
(b) is not in the Ledger: some durable snapshot violates the invariant. -/
theorem C1_counterexample :
    ((runProcess wC1 [cat1] ["c"]).saves.any
      fun sn => !prefixInLedger wC1 sn.1 sn.2) = true := by
  rfl

/-- C1 (amended): `books_processed_on_page` counts confirmed records, not
a positional prefix, so the prefix form of the invariant does not hold at
durable save points; the actual resumability guarantee is that — with
honest Ledger existence checks — no download is ever attempted for a
record that was already in the Ledger when the run started, so re-running
from any persisted state never re-downloads a marked record. -/
theorem C1_amended_no_redownload (w : World) (cats : List Category) (led : List String)
    (hck : ∀ i, w.checkOk i = true) :
    ((attemptsOf (runProcess w cats led).events).all
      fun p => !inLedger led p.1) = true := by
  rw [List.all_eq_true]
  intro p hp
  have h := runProcess_led w cats led hck p hp
  simp [h]

theorem C1_amended_witness :
    ((attemptsOf (runProcess baseW [cat1] ["a"]).events).all
      fun p => !inLedger ["a"] p.1) = true :=
  C1_amended_no_redownload baseW [cat1] ["a"] (fun _ => rfl)

/-- C2 (code bug evaluation): in dry-run mode (`wC2.shouldDownload = false`)
with a one-record page whose record is already in the Ledger, the run
persists a mutated cursor: the page-advance save (source line 509, which
has no dry-run guard) durably writes `next_page_to_scrape = 2`, although
the dry-run banner promises that no state updates will occur. -/
theorem C2_dry_run_persists_state :
    wC2.shouldDownload = false ∧
    (runProcess wC2 [cat1] ["a"]).saves =
      [([{ cat1 with next_page_to_scrape := 2 }], ["a"])] := by
  exact ⟨rfl, rfl⟩

/-- C3 counterexample: not every increment of `books_processed_on_page` is
immediately followed by a durable save.  With page 1 holding a and b, a
already in the Ledger and b downloaded, the trace contains the bump for
the found-in-Ledger record a immediately followed by the check of b — not
by a save (source line 322-323 explicitly skips the save). -/
theorem C3_counterexample :
    bumpsSaved (runProcess twoBookW [cat1] ["a"]).events = false := by
  rfl

/-- C3 (amended): only the increments issued after a successful
download-and-mark are immediately followed by a state-save attempt; in
every run, each successful mark event is immediately followed by a counter
bump and then a save attempt (increments for records found already in the
Ledger are not individually persisted). -/
theorem C3_amended_marked_bumps_saved (w : World) (cats : List Category)
    (led : List String) :
    trioRun 0 (runProcess w cats led).events = 0 :=
  (runProcess_post w cats led).2.2.1

/-- C4 counterexample: records below the persisted skip offset are not
skipped.  Re-running Scenario B's end state (persisted
`books_processed_on_page = 1` at page 1, record a of position 0 already
marked), the run performs a Ledger existence check on a — the claim says
positions below the offset get no Ledger check — because line 235 resets
the in-memory counter to 0 before the page is processed. -/
theorem C4_counterexample :
    catResume.books_processed_on_page = 1 ∧
    (runProcess baseW [catResume] ["a"]).events.contains (Event.check "a") = true := by
  exact ⟨rfl, rfl⟩

/-- C4 (amended): the persisted skip offset is discarded (the counter is
reset to 0 at the start of each page attempt) and every record on the page
is re-checked against the Ledger instead of being positionally skipped;
re-running Scenario B's end state checks position 0 against the Ledger,
attempts no download for it, retries positions 1 and 2, and completes the
page. -/
theorem C4_amended_resume_rechecks :
    (runProcess baseW [catResume] ["a"]).events.contains (Event.check "a") = true ∧
    attemptsOf (runProcess baseW [catResume] ["a"]).events = [("b", true), ("c", true)] ∧
    (runProcess baseW [catResume] ["a"]).cats = [{ cat1 with next_page_to_scrape := 2 }] ∧
    (runProcess baseW [catResume] ["a"]).halt = false := by
  exact ⟨rfl, rfl, rfl, rfl⟩

/-- C5 counterexample: a failed mark after a successful download does block
cursor advancement.  With a one-record page, the record absent from the
Ledger, its download and file write succeeding but the mark failing, the
counter is not incremented (the category ends unchanged at
`books_processed_on_page = 0`) and no page advance occurs — contradicting
the claim that the counter is still incremented and the page can still
reach `advancePage`. -/
theorem C5_counterexample :
    (runProcess wC5 [cat1] []).events.contains (Event.mark "a" false) = true ∧
    (runProcess wC5 [cat1] []).cats = [cat1] ∧
    hasAdvance (runProcess wC5 [cat1] []).events = false ∧
    (runProcess wC5 [cat1] []).halt = false := by
  exact ⟨rfl, rfl, rfl, rfl⟩

/-- C5 (amended): a failed mark is only logged and does not halt the run,
but `books_processed_on_page` is NOT incremented for that record: in every
run, a counter bump never immediately follows a failed mark event, so the
record stays unconfirmed and the page cannot complete through it. -/
theorem C5_amended_no_bump_after_failed_mark (w : World) (cats : List Category)
    (led : List String) :
    nmfRun 0 (runProcess w cats led).events ≤ 1 :=
  (runProcess_post w cats led).2.2.2.1

/-- C6: quota halt propagation.  In every run, once any download attempt
fails, no further download is attempted anywhere in the rest of the run —
the quota automaton (dead state 2 = an attempt after a failure) never
reaches its dead state. -/
theorem C6_quota_halt_propagation (w : World) (cats : List Category)
    (led : List String) :
    quotaRun 0 (runProcess w cats led).events ≤ 1 :=
  (runProcess_post w cats led).1

/-- C7 counterexample: `books_processed_on_page` is reset to 0 at times
other than a page advance.  Starting from a persisted counter of 1 at
page 1, with the sole record absent from the Ledger and its download
failing, the run durably saves the category with counter 0 while
`next_page_to_scrape` is still 1 and no advance event ever occurred. -/
theorem C7_counterexample :
    catResume.books_processed_on_page = 1 ∧
    (runProcess wC7 [catResume] []).saves = [([cat1], [])] ∧
    hasAdvance (runProcess wC7 [catResume] []).events = false := by
  exact ⟨rfl, rfl, rfl⟩

/-- C7 (amended): `next_page_to_scrape` never decreases across a run, and
— provided every input category's counter is within its page's record
count — every category in the final state and in every durable snapshot
still satisfies that bound.  (The reset-to-0 of the counter is not
exclusive to page advances: it also happens at the start of every page
attempt, as the counterexample shows.) -/
theorem C7_amended_monotone_bounded (w : World) (cats : List Category)
    (led : List String) (hok : cats.all (catOKb w) = true) :
    (runProcess w cats led).cats.all (catOKb w) = true ∧
    ((runProcess w cats led).saves.all fun sn => sn.1.all (catOKb w)) = true ∧
    CatsLE cats (runProcess w cats led).cats := by
  have h := runProcess_shape w cats led
    (by rw [List.all_eq_true] at hok; exact fun c hc => hok c hc)
  obtain ⟨h1, h2, h3⟩ := h
  refine ⟨?_, ?_, h3⟩
  · rw [List.all_eq_true]
    exact fun c hc => h1 c hc
  · rw [List.all_eq_true]
    intro sn hsn
    rw [List.all_eq_true]
    exact fun c hc => h2 sn hsn c hc

theorem C7_amended_witness :
    [cat1].all (catOKb baseW) = true ∧
    (runProcess baseW [cat1] []).cats.all (catOKb baseW) = true :=
  ⟨rfl, (C7_amended_monotone_bounded baseW [cat1] [] rfl).1⟩

/-- C8 counterexample: a zero-record page does not leave the persisted
cursor unchanged.  With a persisted `books_processed_on_page = 1` at
page 2 and the scrape of page 2 succeeding with zero records, the
end-of-run save persists the counter as 0 (the line-235 in-memory reset
became durable), although `next_page_to_scrape` stays at 2 and the run
ends without error. -/
theorem C8_counterexample :
    catPage2.books_processed_on_page = 1 ∧
    (runProcess wC8 [catPage2] []).saves =
      [([{ catPage2 with books_processed_on_page := 0 }], [])] ∧
    (runProcess wC8 [catPage2] []).halt = false := by
  exact ⟨rfl, rfl, rfl⟩

/-- C8 (amended): when the current page of an enabled category scrapes
successfully with zero records, `next_page_to_scrape` is left unchanged,
pagination stops, the halt and abort flags stay unset (so the run is not
treated as an error and later categories would still be processed), but
`books_processed_on_page` is reset to 0 — and in download mode with a
working save that zeroed counter is persisted at run end. -/
theorem C8_amended_zero_records (w : World) (cat : Category) (led : List String)
    (hen : cat.scrape_enabled = true) (hid : ¬cat.id = "") (hslug : ¬cat.slug = "")
    (hmax : 0 < cat.max_pages_to_scrape)
    (hscr : w.scrape cat.id cat.next_page_to_scrape = ScrapeResult.mk true []) :
    (runProcess w [cat] led).cats = [{ cat with books_processed_on_page := 0 }] ∧
    (runProcess w [cat] led).halt = false ∧
    (runProcess w [cat] led).aborted = false ∧
    (w.shouldDownload = true → w.saveOk 0 = true →
      (runProcess w [cat] led).saves =
        [([{ cat with books_processed_on_page := 0 }], led)]) := by
  have hstate := zero_records_run w cat led hen hid hslug hmax hscr
  simp only [runProcess]
  rw [hstate]
  cases hsd : w.shouldDownload with
  | false =>
    refine ⟨by simp, by simp, by simp, ?_⟩
    intro h
    cases h
  | true =>
    refine ⟨by simp [saveState_fst_cats], by simp [saveState_fst_halt],
      by simp [saveState_fst_aborted], ?_⟩
    intro _ hso
    simp [saveState_fst_saves, hso]

theorem C8_amended_witness :
    0 < catPage2.max_pages_to_scrape ∧
    (runProcess wC8 [catPage2] []).cats =
      [{ catPage2 with books_processed_on_page := 0 }] :=
  ⟨by decide, (C8_amended_zero_records wC8 catPage2 [] rfl (by decide) (by decide)
    (by decide) rfl).1⟩

/-- C9: persistence failure is fatal.  In every run, after a failed state
save no processing event (check, download attempt, file write, mark, bump
or advance) ever appears in the trace — only further save attempts (the
`finally:` block's final save), so no further record, page or category is
processed after the failed save. -/
theorem C9_save_failure_aborts (w : World) (cats : List Category)
    (led : List String) :
    abortRun 0 (runProcess w cats led).events ≤ 1 :=
  (runProcess_post w cats led).2.2.2.2.2

/-- C10: a failed file write does not halt the run.  (i) In every run, no
mark and no counter bump ever immediately follows a failed file-write
event, and the halt flag is set iff some download attempt failed — so a
file-write failure alone never sets it and the failed record is neither
marked nor counted (and hence retried on a future run).  (ii) On the
concrete two-record page where writing a's file fails, the trace shows
processing continuing with the next missing record b, the page ending not
fully processed with no advance, and the run ending unhalted. -/
theorem C10_file_save_failure_tolerated :
    (∀ (w : World) (cats : List Category) (led : List String),
      fsRun 0 (runProcess w cats led).events ≤ 1 ∧
      hasFailedDl (runProcess w cats led).events = (runProcess w cats led).halt) ∧
    (runProcess wC10 [cat1] []).events =
      [Event.check "a", Event.check "b", Event.dlAttempt "a" true,
       Event.fileWrite "a" false, Event.dlAttempt "b" true, Event.fileWrite "b" true,
       Event.mark "b" true, Event.bump, Event.save true, Event.save true] ∧
    (runProcess wC10 [cat1] []).halt = false := by
  refine ⟨fun w cats led => ⟨(runProcess_post w cats led).2.2.2.2.1,
    (runProcess_post w cats led).2.1⟩, rfl, rfl⟩

end ZlibDownload
